import Mathlib

/-!
# The markdown renderer of `src/markdown.c`

A shallow embedding of `cr`, `escape_html`, `escape_href`, `S_render_node` and
`cmark_render_markdown`, followed by theorems about them.

Conventions of the embedding

* A byte is a `Char`; a byte sequence, a `cmark_chunk` (`data[0 .. len)`) and the
  contents of a `cmark_strbuf` (`ptr[0 .. size)`) are lists of bytes.
* A `char *` argument is the list of bytes found at the pointer; the C string it
  denotes is the part before the first `NUL`.
* A `cmark_node *` is a view of the node: its address, its fields, and the view
  of its parent.  Pointer comparison is comparison of addresses.
* `S_render_node` mutates `*state` and always returns `1`; here it returns the
  new state, or an error where the C program aborts (`assert`) or writes
  outside an array.
-/

namespace Cmark

/-! ## Bytes, C strings and the output buffer -/

/-- A sequence of bytes. -/
abbrev Bytes := List Char

/-- The terminator of a C string. -/
def NUL : Char := Char.ofNat 0

/-- The C library function: number of bytes before the first `NUL`. -/
def strlen (s : Bytes) : Nat :=
  (s.takeWhile (fun c => c != NUL)).length

/-- Contents `ptr[0 .. size)` of a `cmark_strbuf`. -/
abbrev cmark_strbuf := Bytes

/-- Modelled from the spec: `cmark_strbuf_putc` of buffer.c (absent from src/),
the append-only sink: one byte is appended. -/
def cmark_strbuf_putc (buf : cmark_strbuf) (c : Char) : cmark_strbuf :=
  buf ++ [c]

/-- Modelled from the spec: `cmark_strbuf_put` of buffer.c (absent from src/):
the first `len` bytes of `data` are appended. -/
def cmark_strbuf_put (buf : cmark_strbuf) (data : Bytes) (len : Nat) : cmark_strbuf :=
  buf ++ data.take len

/-- Modelled from the spec: `cmark_strbuf_puts` of buffer.c (absent from src/):
the C string at `string` is appended, that is, its bytes before the first `NUL`. -/
def cmark_strbuf_puts (buf : cmark_strbuf) (string : Bytes) : cmark_strbuf :=
  cmark_strbuf_put buf string (strlen string)

/-- The C library conversion `%d`: decimal digits, with a leading `-` for a
negative number. -/
def format_d (n : Int) : Bytes :=
  (toString n).toList

/-- Modelled from the spec: `cmark_strbuf_printf` of buffer.c (absent from src/), for a
format with a single `%d`: `before`, the decimal rendering of `n`, `after`. -/
def cmark_strbuf_printf (buf : cmark_strbuf) (before : Bytes) (n : Int) (after : Bytes) :
    cmark_strbuf :=
  buf ++ before ++ format_d n ++ after

/-- Modelled from the spec: `cmark_strbuf_detach` of buffer.c (absent from src/): the
accumulated bytes are handed to the caller. -/
def cmark_strbuf_detach (buf : cmark_strbuf) : Bytes :=
  buf

/-! ## Escaping primitives -/

/-- Modelled from the spec: the per-byte table of `houdini_escape_html0`
(houdini_html_e.c, absent from src/): `<`, `>`, `&` and `"` are replaced by their
textual entity forms, every other byte is copied. -/
def html_escape_byte (c : Char) : Bytes :=
  if c = '<' then "&lt;".toList
  else if c = '>' then "&gt;".toList
  else if c = '&' then "&amp;".toList
  else if c = '"' then "&quot;".toList
  else [c]

/-- Modelled from the spec: `houdini_escape_html0` (houdini_html_e.c, absent from
src/): appends `src[0 .. size)` to `ob` with the hazardous bytes replaced. -/
def houdini_escape_html0 (ob : cmark_strbuf) (src : Bytes) (size : Nat) (_secure : Int) :
    cmark_strbuf :=
  ob ++ (src.take size).flatMap html_escape_byte

/-- Modelled from the spec: the bytes `houdini_escape_href` copies unchanged, those
that are neither reserved nor unsafe inside a URL reference. -/
def href_safe (c : Char) : Bool :=
  c.isAlphanum || c == '-' || c == '.' || c == '_' || c == '~'

/-- Hexadecimal digits used by the percent encoding. -/
def hex_chars : Bytes := "0123456789ABCDEF".toList

/-- Modelled from the spec: the percent-style encoding of one byte. -/
def href_escape_byte (c : Char) : Bytes :=
  if href_safe c then [c]
  else ['%', hex_chars.getD (c.toNat / 16 % 16) '0', hex_chars.getD (c.toNat % 16) '0']

/-- Modelled from the spec: `houdini_escape_href` (houdini_href_e.c, absent from
src/): a one-pass byte-level escape of `src[0 .. size)` appended to `ob`. -/
def houdini_escape_href (ob : cmark_strbuf) (src : Bytes) (size : Nat) : cmark_strbuf :=
  ob ++ (src.take size).flatMap href_escape_byte

/-- The function `escape_html` of markdown.c, lines 14-20. -/
def escape_html (dest : cmark_strbuf) (source : Bytes) (length : Int) : cmark_strbuf :=
  let length : Int := if length < 0 then (strlen source : Int) else length
  houdini_escape_html0 dest source length.toNat 0

/-- The function `escape_href` of markdown.c, lines 22-28. -/
def escape_href (dest : cmark_strbuf) (source : Bytes) (length : Int) : cmark_strbuf :=
  let length : Int := if length < 0 then (strlen source : Int) else length
  houdini_escape_href dest source length.toNat

/-- The function `cr` of markdown.c, lines 30-34. -/
def cr (html : cmark_strbuf) : cmark_strbuf :=
  if html.length ≠ 0 ∧ html[html.length - 1]? ≠ some '\n' then
    cmark_strbuf_putc html '\n'
  else
    html

/-! ## Nodes -/

/-- The enumeration `cmark_node_type` (cmark.h): the eighteen kinds dispatched on by
`S_render_node`, and `CMARK_NODE_OTHER v` for any other value of the C type. -/
inductive cmark_node_type where
  | CMARK_NODE_DOCUMENT
  | CMARK_NODE_BLOCK_QUOTE
  | CMARK_NODE_LIST
  | CMARK_NODE_ITEM
  | CMARK_NODE_HEADER
  | CMARK_NODE_CODE_BLOCK
  | CMARK_NODE_HTML
  | CMARK_NODE_HRULE
  | CMARK_NODE_PARAGRAPH
  | CMARK_NODE_TEXT
  | CMARK_NODE_LINEBREAK
  | CMARK_NODE_SOFTBREAK
  | CMARK_NODE_CODE
  | CMARK_NODE_INLINE_HTML
  | CMARK_NODE_STRONG
  | CMARK_NODE_EMPH
  | CMARK_NODE_LINK
  | CMARK_NODE_IMAGE
  | CMARK_NODE_OTHER (v : Nat)
  deriving DecidableEq

open cmark_node_type

/-- The enumeration `cmark_event_type` (cmark.h). -/
inductive cmark_event_type where
  | CMARK_EVENT_DONE
  | CMARK_EVENT_ENTER
  | CMARK_EVENT_EXIT
  deriving DecidableEq

open cmark_event_type

/-- The enumeration `cmark_list_type` (cmark.h), with the two list styles of the
data model. -/
inductive cmark_list_type where
  | CMARK_BULLET_LIST
  | CMARK_ORDERED_LIST
  deriving DecidableEq

open cmark_list_type

/-- The fields of `node->as.list` read by the renderer. -/
structure cmark_list where
  list_type : cmark_list_type := CMARK_BULLET_LIST
  start : Int := 0
  tight : Bool := false
  deriving DecidableEq

/-- The field of `node->as.header` read by the renderer. -/
structure cmark_header where
  level : Int := 0
  deriving DecidableEq

/-- The field of `node->as.code` read by the renderer. -/
structure cmark_code where
  info : Bytes := []
  deriving DecidableEq

/-- The fields of `node->as.link`: each is `NULL` (`none`) or a C string. -/
structure cmark_link where
  url : Option Bytes := none
  title : Option Bytes := none
  deriving DecidableEq

/-- The member `as` of a node, with the fields the renderer reads. -/
structure cmark_node_as where
  literal : Bytes := []
  list : cmark_list := {}
  header : cmark_header := {}
  code : cmark_code := {}
  link : cmark_link := {}
  deriving DecidableEq

/-- The address of a node: the child indices on the way down from the root. -/
abbrev cmark_node_ptr := List Nat

/-- What a `cmark_node *` gives access to: the address, `type`, `as` and `parent`. -/
structure cmark_node where
  ptr : cmark_node_ptr
  parent : Option cmark_node
  type : cmark_node_type
  as : cmark_node_as

/-- Modelled from the spec: `cmark_node_parent` of node.c (absent from src/): the
parent back-reference, `NULL` for `NULL`. -/
def cmark_node_parent (node : Option cmark_node) : Option cmark_node :=
  match node with
  | none => none
  | some n => n.parent

/-- The structure `render_state` of markdown.c, lines 36-39. -/
structure render_state where
  html : cmark_strbuf
  plain : Option cmark_node_ptr
  deriving DecidableEq

/-- The ways in which a call of `S_render_node` does not return. -/
inductive render_error where
  | assertion_failed
  | out_of_bounds
  deriving DecidableEq

deriving instance DecidableEq for Except

/-- The assignment `a[i] = c` to a fixed array, failing outside its bounds. -/
def array_store (a : Bytes) (i : Int) (c : Char) : Except render_error Bytes :=
  if 0 ≤ i ∧ i < (a.length : Int) then .ok (a.set i.toNat c) else .error .out_of_bounds

/-- The loop of markdown.c, lines 146-149; `rest` is `info.data[first_tag .. info.len)`. -/
def first_tag_loop : Bytes → Nat → Nat
  | [], first_tag => first_tag
  | c :: rest, first_tag =>
    if c ≠ ' ' then first_tag_loop rest (first_tag + 1) else first_tag

/-- The initial contents of the array `start_header` (markdown.c, line 48), terminator
included. -/
def start_header_init : Bytes := "#######".toList ++ [NUL]

/-- The initial contents of the array `end_header` (markdown.c, line 49), terminator
included. -/
def end_header_init : Bytes := " #######".toList ++ [NUL]

/-- The function `S_render_node` of markdown.c, lines 41-266. -/
def S_render_node (node : cmark_node) (ev_type : cmark_event_type) (state : render_state) :
    Except render_error render_state :=
  let html := state.html
  let start_header : Bytes := start_header_init
  let end_header : Bytes := end_header_init
  let entering : Bool := ev_type == CMARK_EVENT_ENTER
  -- back at original node
  let plain : Option cmark_node_ptr := if state.plain = some node.ptr then none else state.plain
  if plain.isSome then
    match node.type with
    | CMARK_NODE_TEXT | CMARK_NODE_CODE | CMARK_NODE_INLINE_HTML =>
      .ok ⟨escape_html html node.as.literal node.as.literal.length, plain⟩
    | CMARK_NODE_LINEBREAK | CMARK_NODE_SOFTBREAK =>
      .ok ⟨cmark_strbuf_putc html ' ', plain⟩
    | _ => .ok ⟨html, plain⟩
  else
    match node.type with
    | CMARK_NODE_DOCUMENT => .ok ⟨html, plain⟩
    | CMARK_NODE_BLOCK_QUOTE =>
      if entering then
        .ok ⟨cmark_strbuf_puts (cr html) "<blockquote>\n".toList, plain⟩
      else
        .ok ⟨cmark_strbuf_puts (cr html) "</blockquote>\n".toList, plain⟩
    | CMARK_NODE_LIST =>
      let list_type := node.as.list.list_type
      let start := node.as.list.start
      if entering then
        let html := cr html
        if list_type = CMARK_BULLET_LIST then
          .ok ⟨cmark_strbuf_puts html "<ul>\n".toList, plain⟩
        else if start = 1 then
          .ok ⟨cmark_strbuf_puts html "<ol>\n".toList, plain⟩
        else
          .ok ⟨cmark_strbuf_printf html "<ol start=\"".toList start "\">\n".toList, plain⟩
      else
        .ok ⟨cmark_strbuf_puts html
          (if list_type = CMARK_BULLET_LIST then "</ul>\n".toList else "</ol>\n".toList), plain⟩
    | CMARK_NODE_ITEM =>
      if entering then
        .ok ⟨cmark_strbuf_puts (cr html) "".toList, plain⟩
      else
        .ok ⟨cmark_strbuf_puts html "</li>\n".toList, plain⟩
    | CMARK_NODE_HEADER =>
      if entering then
        let html := cr html
        match array_store start_header node.as.header.level NUL with
        | .error e => .error e
        | .ok start_header => .ok ⟨cmark_strbuf_puts html start_header, plain⟩
      else
        match array_store end_header (1 + node.as.header.level) NUL with
        | .error e => .error e
        | .ok end_header =>
          .ok ⟨cmark_strbuf_putc (cmark_strbuf_puts html end_header) '\n', plain⟩
    | CMARK_NODE_CODE_BLOCK =>
      let html := cr html
      -- the address `&node->as.code.fence_length` is never null
      let fence_length_addr_is_null : Bool := false
      let html :=
        if fence_length_addr_is_null || node.as.code.info.length == 0 then
          cmark_strbuf_puts html "<pre><code>".toList
        else
          let first_tag := first_tag_loop node.as.code.info 0
          let html := cmark_strbuf_puts html "<pre><code class=\"language-".toList
          let html := escape_html html node.as.code.info first_tag
          cmark_strbuf_puts html "\">".toList
      let html := escape_html html node.as.literal node.as.literal.length
      .ok ⟨cmark_strbuf_puts html "</code></pre>\n".toList, plain⟩
    | CMARK_NODE_HTML =>
      .ok ⟨cmark_strbuf_put (cr html) node.as.literal node.as.literal.length, plain⟩
    | CMARK_NODE_HRULE =>
      .ok ⟨cmark_strbuf_puts (cr html) "------\n".toList, plain⟩
    | CMARK_NODE_PARAGRAPH =>
      let parent := cmark_node_parent (some node)
      let grandparent := cmark_node_parent parent
      let tight : Bool :=
        match grandparent with
        | some g => if g.type = CMARK_NODE_LIST then g.as.list.tight else false
        | none => false
      if !tight then
        if entering then
          .ok ⟨cmark_strbuf_puts (cr html) "\n".toList, plain⟩
        else
          .ok ⟨cmark_strbuf_puts html "\n".toList, plain⟩
      else
        .ok ⟨html, plain⟩
    | CMARK_NODE_TEXT =>
      .ok ⟨escape_html html node.as.literal node.as.literal.length, plain⟩
    | CMARK_NODE_LINEBREAK => .ok ⟨cmark_strbuf_puts html "\n".toList, plain⟩
    | CMARK_NODE_SOFTBREAK => .ok ⟨cmark_strbuf_putc html '\n', plain⟩
    | CMARK_NODE_CODE =>
      let html := cmark_strbuf_puts html "<code>".toList
      let html := escape_html html node.as.literal node.as.literal.length
      .ok ⟨cmark_strbuf_puts html "</code>".toList, plain⟩
    | CMARK_NODE_INLINE_HTML =>
      .ok ⟨cmark_strbuf_put html node.as.literal node.as.literal.length, plain⟩
    | CMARK_NODE_STRONG =>
      if entering then
        .ok ⟨cmark_strbuf_puts html "**".toList, plain⟩
      else
        .ok ⟨cmark_strbuf_puts html "**".toList, plain⟩
    | CMARK_NODE_EMPH =>
      if entering then
        .ok ⟨cmark_strbuf_puts html "*".toList, plain⟩
      else
        .ok ⟨cmark_strbuf_puts html "*".toList, plain⟩
    | CMARK_NODE_LINK =>
      if entering then
        let html := cmark_strbuf_puts html "[".toList
        let html :=
          match node.as.link.title with
          | some title => escape_html html title (-1)
          | none => html
        let html := cmark_strbuf_puts html "](".toList
        let html :=
          match node.as.link.url with
          | some url => escape_href html url (-1)
          | none => html
        .ok ⟨cmark_strbuf_puts html ")".toList, plain⟩
      else
        .ok ⟨html, plain⟩
    | CMARK_NODE_IMAGE =>
      if entering then
        let html := cmark_strbuf_puts html "![".toList
        let html :=
          match node.as.link.title with
          | some title => escape_html html title (-1)
          | none => html
        let html := cmark_strbuf_puts html "](".toList
        let html :=
          match node.as.link.url with
          | some url => escape_href html url (-1)
          | none => html
        .ok ⟨cmark_strbuf_puts html ")".toList, some node.ptr⟩
      else
        .ok ⟨html, plain⟩
    | CMARK_NODE_OTHER _ => .error .assertion_failed

/-! ## The traversal and the driver -/

/-- A document tree as the traversal walks it: a node's `type`, `as` and children. -/
inductive cmark_tree where
  | mk (type : cmark_node_type) (as : cmark_node_as) (children : List cmark_tree)

/-- The leaf kinds of the data model. -/
def is_leaf_kind (type : cmark_node_type) : Bool :=
  match type with
  | CMARK_NODE_TEXT | CMARK_NODE_CODE | CMARK_NODE_INLINE_HTML | CMARK_NODE_LINEBREAK
  | CMARK_NODE_SOFTBREAK | CMARK_NODE_HRULE | CMARK_NODE_HTML | CMARK_NODE_CODE_BLOCK => true
  | _ => false

/-- A traversal event: the current node and the phase. -/
abbrev cmark_event := cmark_node × cmark_event_type

mutual
/-- Modelled from the spec: the traversal source (`cmark_iter_new`,
`cmark_iter_next`, `cmark_iter_get_node` of iterator.c, absent from src/), as the
list of events it yields before `CMARK_EVENT_DONE`.  A node yields Enter, then the
events of its children in order, then Exit.  For a node of a leaf kind the spec has
two readings, Enter and Exit adjacent (section 3) or a single phase, Enter (the
dispatch table of 4.1); `leaf_exit` chooses between them.  Under the second reading
the children of a node of a leaf kind, none in the data model, are not visited. -/
def cmark_iter_events (leaf_exit : Bool) (ptr : cmark_node_ptr) (parent : Option cmark_node) :
    cmark_tree → List cmark_event
  | .mk type as children =>
    let node : cmark_node := ⟨ptr, parent, type, as⟩
    if is_leaf_kind type && !leaf_exit then
      [(node, CMARK_EVENT_ENTER)]
    else
      (node, CMARK_EVENT_ENTER) ::
        (cmark_iter_children leaf_exit ptr (some node) 0 children ++ [(node, CMARK_EVENT_EXIT)])
/-- Modelled from the spec: the events of the children `i, i+1, ...` of the node at `ptr`. -/
def cmark_iter_children (leaf_exit : Bool) (ptr : cmark_node_ptr) (parent : Option cmark_node)
    (i : Nat) : List cmark_tree → List cmark_event
  | [] => []
  | child :: rest =>
    cmark_iter_events leaf_exit (ptr ++ [i]) parent child ++
      cmark_iter_children leaf_exit ptr parent (i + 1) rest
end

/-- The loop of markdown.c, lines 279-282, over the events of the traversal. -/
def render_loop : List cmark_event → render_state → Except render_error render_state
  | [], state => .ok state
  | (cur, ev_type) :: rest, state =>
    match S_render_node cur ev_type state with
    | .error e => .error e
    | .ok state => render_loop rest state

/-- The function `cmark_render_markdown` of markdown.c, lines 270-288; `leaf_exit` is
passed on to the model of the traversal. -/
def cmark_render_markdown (leaf_exit : Bool) (root : cmark_tree) (_options : Int) :
    Except render_error Bytes :=
  let html : cmark_strbuf := []
  let state : render_state := ⟨html, none⟩
  match render_loop (cmark_iter_events leaf_exit [] none root) state with
  | .error e => .error e
  | .ok state => .ok (cmark_strbuf_detach state.html)

/-! ## Properties used in the statements -/

/-- Whether `s` begins with one of the four entity forms. -/
def starts_with_entity (s : Bytes) : Bool :=
  "&lt;".toList.isPrefixOf s || "&gt;".toList.isPrefixOf s ||
    "&amp;".toList.isPrefixOf s || "&quot;".toList.isPrefixOf s

/-- No raw `<`, `>`, `&` or `"`: the bytes `<`, `>` and `"` do not occur, and every `&`
begins an entity form. -/
def no_raw_special : Bytes → Bool
  | [] => true
  | c :: rest =>
    (if c = '&' then starts_with_entity (c :: rest) else (c != '<' && c != '>' && c != '"')) &&
      no_raw_special rest

/-- The bytes a normal-mode event on `node` appends to the empty buffer: the marker of the
event. -/
def block_marker (node : cmark_node) (ev_type : cmark_event_type) :
    Except render_error Bytes :=
  match S_render_node node ev_type ⟨[], none⟩ with
  | .error e => .error e
  | .ok state => .ok state.html

/-- The buffer of a result of `S_render_node`. -/
def result_html (r : Except render_error render_state) : Except render_error cmark_strbuf :=
  match r with
  | .error e => .error e
  | .ok state => .ok state.html

/-- The marker `m` of an event placed after the buffer `before`. -/
def marker_after (before : cmark_strbuf) (m : Except render_error Bytes) :
    Except render_error cmark_strbuf :=
  match m with
  | .error e => .error e
  | .ok bytes => .ok (before ++ bytes)

/-- The first whitespace-delimited token of an info string: leading whitespace is skipped
and the token ends at the first whitespace character. -/
def first_whitespace_token (info : Bytes) : Bytes :=
  (info.dropWhile Char.isWhitespace).takeWhile (fun c => !c.isWhitespace)

/-- The eighteen kinds of the closed set. -/
def is_known_kind (type : cmark_node_type) : Bool :=
  match type with
  | CMARK_NODE_OTHER _ => false
  | _ => true

mutual
/-- A well-formed tree, by the invariants of the data model: every kind is in the closed
set, every Header has a level from 1 to 6, and a node of a leaf kind has no children. -/
def well_formed : cmark_tree → Bool
  | .mk type as children =>
    is_known_kind type &&
    (type != CMARK_NODE_HEADER ||
      (decide (1 ≤ as.header.level) && decide (as.header.level ≤ 6))) &&
    (!is_leaf_kind type || children.isEmpty) &&
    well_formed_children children
/-- Every tree of the list is well-formed. -/
def well_formed_children : List cmark_tree → Bool
  | [] => true
  | child :: rest => well_formed child && well_formed_children rest
end

/-- The addresses of a node and of its ancestors, found by following `parent`. -/
def self_and_ancestors : cmark_node → List cmark_node_ptr
  | ⟨ptr, none, _, _⟩ => [ptr]
  | ⟨ptr, some p, _, _⟩ => ptr :: self_and_ancestors p

/-- The addresses of the node behind a `parent` pointer and of its ancestors; none for
`NULL`. -/
def parent_and_ancestors (parent : Option cmark_node) : List cmark_node_ptr :=
  match parent with
  | none => []
  | some p => self_and_ancestors p

/-- Every event of the list is processed in turn from `state`, each call of `S_render_node`
returns, and each step satisfies `P` (state before, node, phase, state after). -/
def steps_satisfy (P : render_state → cmark_node → cmark_event_type → render_state → Prop) :
    List cmark_event → render_state → Prop
  | [], _ => True
  | (node, ev_type) :: rest, state =>
    ∃ state', S_render_node node ev_type state = .ok state' ∧ P state node ev_type state' ∧
      steps_satisfy P rest state'

/-- The anchor invariant at one step: before the step `plain` is `NULL` or the address of
the node of the event or of one of its ancestors, and the step clears `plain` exactly when
it is the Exit event of the anchor. -/
def anchor_step (state : render_state) (node : cmark_node) (ev_type : cmark_event_type)
    (state' : render_state) : Prop :=
  (state.plain = none ∨ ∃ a, state.plain = some a ∧ a ∈ self_and_ancestors node) ∧
  ((state.plain ≠ none ∧ state'.plain = none) ↔
    (state.plain = some node.ptr ∧ ev_type = CMARK_EVENT_EXIT))

/-- What one node contributes to the flattened text of an image: the HTML-escaped literal of
a Text, Code or InlineHtml node, one space for a LineBreak or SoftBreak node, nothing for
any other kind. -/
def plain_contribution (type : cmark_node_type) (as : cmark_node_as) : Bytes :=
  match type with
  | CMARK_NODE_TEXT | CMARK_NODE_CODE | CMARK_NODE_INLINE_HTML =>
    escape_html [] as.literal as.literal.length
  | CMARK_NODE_LINEBREAK | CMARK_NODE_SOFTBREAK => [' ']
  | _ => []

/-- The syntax an Image node emits on Enter: `![`, the HTML-escaped title if there is one,
`](`, the URL-escaped url if there is one, `)`. -/
def image_markup (as : cmark_node_as) : Bytes :=
  "![".toList ++
    (match as.link.title with
      | some title => escape_html [] title (-1)
      | none => []) ++
    "](".toList ++
    (match as.link.url with
      | some url => escape_href [] url (-1)
      | none => []) ++
    ")".toList

mutual
/-- The contributions of a node and of its descendants, in document order. -/
def plain_text : cmark_tree → Bytes
  | .mk type as children => plain_contribution type as ++ plain_text_children children
/-- The contributions of the trees of a list and of their descendants, in document order. -/
def plain_text_children : List cmark_tree → Bytes
  | [] => []
  | child :: rest => plain_text child ++ plain_text_children rest
end

/-! ## Basic facts about the buffer primitives -/

theorem strlen_eq_length (s : Bytes) (h : ∀ c ∈ s, c ≠ NUL) : strlen s = s.length := by
  unfold strlen
  rw [List.takeWhile_eq_self_iff.mpr]
  intro c hc
  simpa using h c hc

theorem puts_eq_append (buf s : Bytes) (h : ∀ c ∈ s, c ≠ NUL) :
    cmark_strbuf_puts buf s = buf ++ s := by
  unfold cmark_strbuf_puts cmark_strbuf_put
  rw [strlen_eq_length s h, List.take_length]

theorem cr_eq (b : cmark_strbuf) :
    cr b = if b ≠ [] ∧ b.getLast? ≠ some '\n' then b ++ ['\n'] else b := by
  unfold cr cmark_strbuf_putc
  rw [List.getLast?_eq_getElem?]
  simp only [ne_eq, List.length_eq_zero]

theorem cr_append_newline (b : cmark_strbuf) : cr (b ++ ['\n']) = b ++ ['\n'] := by
  rw [cr_eq]
  simp

theorem puts_lit (buf s : Bytes) (h : s.all (fun c => c != NUL) = true) :
    cmark_strbuf_puts buf s = buf ++ s := by
  apply puts_eq_append
  intro c hc
  have := List.all_eq_true.mp h c hc
  simpa using this

theorem start_header_marker (k : Nat) (h1 : 1 ≤ k) (h6 : k ≤ 6) :
    array_store start_header_init (k : Int) NUL = .ok (start_header_init.set k NUL) ∧
    cmark_strbuf_puts [] (start_header_init.set k NUL) = List.replicate k '#' := by
  interval_cases k <;> decide

theorem end_header_marker (k : Nat) (h1 : 1 ≤ k) (h6 : k ≤ 6) :
    array_store end_header_init (1 + (k : Int)) NUL = .ok (end_header_init.set (1 + k) NUL) ∧
    cmark_strbuf_puts [] (end_header_init.set (1 + k) NUL) = ' ' :: List.replicate k '#' := by
  interval_cases k <;> decide

theorem puts_append (buf s : Bytes) :
    cmark_strbuf_puts buf s = buf ++ cmark_strbuf_puts [] s := by
  simp [cmark_strbuf_puts, cmark_strbuf_put]

theorem escape_html_nat (dest s : Bytes) (n : Nat) :
    escape_html dest s (n : Int) = dest ++ (s.take n).flatMap html_escape_byte := by
  have h : ¬ ((n : Int) < 0) := by omega
  simp [escape_html, houdini_escape_html0, h]

theorem escape_html_len (dest s : Bytes) :
    escape_html dest s (s.length : Int) = dest ++ s.flatMap html_escape_byte := by
  rw [escape_html_nat, List.take_length]

theorem escape_html_neg (dest s : Bytes) :
    escape_html dest s (-1) = dest ++ (s.take (strlen s)).flatMap html_escape_byte := by
  simp [escape_html, houdini_escape_html0]

theorem first_tag_loop_eq (info : Bytes) (n : Nat) :
    first_tag_loop info n = n + (info.takeWhile (fun c => decide (c ≠ ' '))).length := by
  induction info generalizing n with
  | nil => simp [first_tag_loop]
  | cons c rest ih =>
    by_cases hc : c = ' '
    · simp [first_tag_loop, hc]
    · simp [first_tag_loop, hc, ih]
      omega

theorem take_first_tag (info : Bytes) :
    info.take (first_tag_loop info 0) = info.takeWhile (fun c => decide (c ≠ ' ')) := by
  rw [first_tag_loop_eq, Nat.zero_add]
  induction info with
  | nil => simp
  | cons c rest ih =>
    by_cases hc : c = ' '
    · simp [hc]
    · simpa [List.takeWhile_cons, hc] using ih

theorem escape_html_first_tag (dest info : Bytes) :
    escape_html dest info (first_tag_loop info 0 : Int) =
      dest ++ (info.takeWhile (fun c => decide (c ≠ ' '))).flatMap html_escape_byte := by
  rw [escape_html_nat, take_first_tag]

theorem prefix_length_le_takeWhile (P : Char → Bool) :
    ∀ (l p : Bytes), p <+: l → (∀ x ∈ p, P x = true) → p.length ≤ (l.takeWhile P).length := by
  intro l
  induction l with
  | nil =>
    intro p hp _
    simp [List.prefix_nil.mp hp]
  | cons a l ih =>
    intro p hp hall
    cases p with
    | nil => simp
    | cons b p =>
      obtain ⟨hab, hpl⟩ := List.cons_prefix_cons.mp hp
      subst hab
      have hb : P b = true := hall b (by simp)
      have := ih p hpl (fun x hx => hall x (by simp [hx]))
      simp [List.takeWhile_cons, hb]
      exact this

theorem no_raw_special_escaped (s : Bytes) :
    no_raw_special (s.flatMap html_escape_byte) = true := by
  induction s with
  | nil => rfl
  | cons c rest ih =>
    rw [List.flatMap_cons]
    unfold html_escape_byte
    split_ifs with h1 h2 h3 h4
    · simpa [no_raw_special, starts_with_entity, List.isPrefixOf] using ih
    · simpa [no_raw_special, starts_with_entity, List.isPrefixOf] using ih
    · simpa [no_raw_special, starts_with_entity, List.isPrefixOf] using ih
    · simpa [no_raw_special, starts_with_entity, List.isPrefixOf] using ih
    · simpa [no_raw_special, h1, h2, h3, h4] using ih

theorem not_mem_escaped (s : Bytes) (c : Char) (hc : c = '<' ∨ c = '>' ∨ c = '"') :
    c ∉ s.flatMap html_escape_byte := by
  intro hmem
  obtain ⟨a, _, ha⟩ := List.mem_flatMap.mp hmem
  unfold html_escape_byte at ha
  split_ifs at ha with h1 h2 h3 h4
  · rcases hc with rfl | rfl | rfl <;> simp at ha
  · rcases hc with rfl | rfl | rfl <;> simp at ha
  · rcases hc with rfl | rfl | rfl <;> simp at ha
  · rcases hc with rfl | rfl | rfl <;> simp at ha
  · simp at ha
    subst ha
    rcases hc with rfl | rfl | rfl <;> contradiction

/-! ## The newline normalizer -/

/-- C10: for every buffer `b`, `cr b` is `b` followed by one newline when `b` is not empty
and its last byte is not a newline, and `b` itself otherwise; the empty buffer stays
empty and a buffer that ends in a newline gains no further newline. -/
theorem cr_appends_newline_iff_needed (b : cmark_strbuf) :
    cr b = (if b ≠ [] ∧ b.getLast? ≠ some '\n' then b ++ "\n".toList else b) ∧
    cr [] = [] ∧
    cr (b ++ "\n".toList) = b ++ "\n".toList :=
  ⟨cr_eq b, by decide, cr_append_newline b⟩

/-! ## Lists -/

/-- C6: for a List node in normal mode, Enter appends after newline normalization the
marker `<ul>` for a bullet list whatever its start, `<ol>` for an ordered list that
starts at 1, and `<ol start="N">` with N the decimal rendering of start otherwise, each
followed by a newline; Exit appends `</ul>` for a bullet list and `</ol>` for an ordered
one, so the close marker matches the open marker of the node. -/
theorem list_open_close_markers (node : cmark_node) (html : cmark_strbuf)
    (plain : Option cmark_node_ptr) (h : node.type = CMARK_NODE_LIST)
    (hplain : plain = none ∨ plain = some node.ptr) :
    (node.as.list.list_type = CMARK_BULLET_LIST →
      S_render_node node CMARK_EVENT_ENTER ⟨html, plain⟩ =
        .ok ⟨cr html ++ "<ul>\n".toList, none⟩ ∧
      S_render_node node CMARK_EVENT_EXIT ⟨html, plain⟩ =
        .ok ⟨html ++ "</ul>\n".toList, none⟩) ∧
    (node.as.list.list_type = CMARK_ORDERED_LIST → node.as.list.start = 1 →
      S_render_node node CMARK_EVENT_ENTER ⟨html, plain⟩ =
        .ok ⟨cr html ++ "<ol>\n".toList, none⟩) ∧
    (node.as.list.list_type = CMARK_ORDERED_LIST → node.as.list.start ≠ 1 →
      S_render_node node CMARK_EVENT_ENTER ⟨html, plain⟩ =
        .ok ⟨cr html ++ "<ol start=\"".toList ++ format_d node.as.list.start ++
          "\">\n".toList, none⟩) ∧
    (node.as.list.list_type = CMARK_ORDERED_LIST →
      S_render_node node CMARK_EVENT_EXIT ⟨html, plain⟩ =
        .ok ⟨html ++ "</ol>\n".toList, none⟩) := by
  refine ⟨fun hb => ?_, fun ho h1 => ?_, fun ho h1 => ?_, fun ho => ?_⟩
  · rcases hplain with rfl | rfl <;> simp +decide [S_render_node, h, hb, puts_lit]
  · rcases hplain with rfl | rfl <;> simp +decide [S_render_node, h, ho, h1, puts_lit]
  · rcases hplain with rfl | rfl <;>
      simp +decide [S_render_node, h, ho, h1, cmark_strbuf_printf]
  · rcases hplain with rfl | rfl <;> simp +decide [S_render_node, h, ho, puts_lit]

/-- Start 1 omits the attribute and start 5 carries it, for the ordered list at the root
after the buffer `x`; the bullet list ignores its start. -/
theorem list_open_close_markers_witness :
    S_render_node ⟨[], none, CMARK_NODE_LIST, { list := ⟨CMARK_ORDERED_LIST, 1, false⟩ }⟩
        CMARK_EVENT_ENTER ⟨"x".toList, none⟩ = .ok ⟨"x\n<ol>\n".toList, none⟩ ∧
    S_render_node ⟨[], none, CMARK_NODE_LIST, { list := ⟨CMARK_ORDERED_LIST, 5, false⟩ }⟩
        CMARK_EVENT_ENTER ⟨"x".toList, none⟩ = .ok ⟨"x\n<ol start=\"5\">\n".toList, none⟩ ∧
    S_render_node ⟨[], none, CMARK_NODE_LIST, { list := ⟨CMARK_ORDERED_LIST, 5, false⟩ }⟩
        CMARK_EVENT_EXIT ⟨"x".toList, none⟩ = .ok ⟨"x</ol>\n".toList, none⟩ ∧
    S_render_node ⟨[], none, CMARK_NODE_LIST, { list := ⟨CMARK_BULLET_LIST, 5, false⟩ }⟩
        CMARK_EVENT_ENTER ⟨"x".toList, none⟩ = .ok ⟨"x\n<ul>\n".toList, none⟩ :=
  ⟨(list_open_close_markers
      ⟨[], none, CMARK_NODE_LIST, { list := ⟨CMARK_ORDERED_LIST, 1, false⟩ }⟩ "x".toList none
      rfl (Or.inl rfl)).2.1 rfl rfl,
   (list_open_close_markers
      ⟨[], none, CMARK_NODE_LIST, { list := ⟨CMARK_ORDERED_LIST, 5, false⟩ }⟩ "x".toList none
      rfl (Or.inl rfl)).2.2.1 rfl (by decide),
   (list_open_close_markers
      ⟨[], none, CMARK_NODE_LIST, { list := ⟨CMARK_ORDERED_LIST, 5, false⟩ }⟩ "x".toList none
      rfl (Or.inl rfl)).2.2.2 rfl,
   (list_open_close_markers
      ⟨[], none, CMARK_NODE_LIST, { list := ⟨CMARK_BULLET_LIST, 5, false⟩ }⟩ "x".toList none
      rfl (Or.inl rfl)).1 rfl |>.1⟩

/-! ## Headers -/

/-- C7: for a Header node whose level L is between 1 and 6, in normal mode, the two
terminator writes `start_header[L]` and `end_header[1 + L]` fall inside the arrays, Enter
appends after newline normalization exactly L `#` characters, and Exit appends one space,
exactly L `#` characters and one newline. -/
theorem header_markers_sized_to_level (node : cmark_node) (html : cmark_strbuf)
    (plain : Option cmark_node_ptr) (h : node.type = CMARK_NODE_HEADER)
    (hlevel : 1 ≤ node.as.header.level ∧ node.as.header.level ≤ 6)
    (hplain : plain = none ∨ plain = some node.ptr) :
    (0 ≤ node.as.header.level ∧ node.as.header.level < (start_header_init.length : Int)) ∧
    (0 ≤ 1 + node.as.header.level ∧
      1 + node.as.header.level < (end_header_init.length : Int)) ∧
    array_store start_header_init node.as.header.level NUL =
      .ok (start_header_init.set node.as.header.level.toNat NUL) ∧
    array_store end_header_init (1 + node.as.header.level) NUL =
      .ok (end_header_init.set (1 + node.as.header.level).toNat NUL) ∧
    S_render_node node CMARK_EVENT_ENTER ⟨html, plain⟩ =
      .ok ⟨cr html ++ List.replicate node.as.header.level.toNat '#', none⟩ ∧
    S_render_node node CMARK_EVENT_EXIT ⟨html, plain⟩ =
      .ok ⟨html ++ [' '] ++ List.replicate node.as.header.level.toNat '#' ++ ['\n'], none⟩ := by
  obtain ⟨l1, l6⟩ := hlevel
  obtain ⟨k, hk⟩ := Int.eq_ofNat_of_zero_le (by omega : 0 ≤ node.as.header.level)
  have k1 : 1 ≤ k := by omega
  have k6 : k ≤ 6 := by omega
  have hs : (start_header_init.length : Int) = 8 := by decide
  have he : (end_header_init.length : Int) = 9 := by decide
  have hk1 : (1 + (k : Int)).toNat = 1 + k := by omega
  have hS := start_header_marker k k1 k6
  have hE := end_header_marker k k1 k6
  rw [hk, Int.toNat_ofNat, hk1]
  refine ⟨⟨by omega, by omega⟩, ⟨by omega, by omega⟩, hS.1, hE.1, ?_, ?_⟩
  · rcases hplain with rfl | rfl <;>
      simp only [S_render_node, h, hk, hS.1] <;>
      rw [puts_append, hS.2] <;> simp
  · rcases hplain with rfl | rfl <;>
      simp only [S_render_node, h, hk, hE.1] <;>
      rw [puts_append, hE.2] <;> simp [cmark_strbuf_putc]

/-- Levels 1 and 6, after the buffer `a`: the markers `#` and `######`. -/
theorem header_markers_sized_to_level_witness :
    (S_render_node ⟨[], none, CMARK_NODE_HEADER, { header := ⟨1⟩ }⟩ CMARK_EVENT_ENTER
        ⟨"a".toList, none⟩ = .ok ⟨"a\n#".toList, none⟩ ∧
     S_render_node ⟨[], none, CMARK_NODE_HEADER, { header := ⟨1⟩ }⟩ CMARK_EVENT_EXIT
        ⟨"a".toList, none⟩ = .ok ⟨"a #\n".toList, none⟩) ∧
    (S_render_node ⟨[], none, CMARK_NODE_HEADER, { header := ⟨6⟩ }⟩ CMARK_EVENT_ENTER
        ⟨"a".toList, none⟩ = .ok ⟨"a\n######".toList, none⟩ ∧
     S_render_node ⟨[], none, CMARK_NODE_HEADER, { header := ⟨6⟩ }⟩ CMARK_EVENT_EXIT
        ⟨"a".toList, none⟩ = .ok ⟨"a ######\n".toList, none⟩) :=
  ⟨(header_markers_sized_to_level ⟨[], none, CMARK_NODE_HEADER, { header := ⟨1⟩ }⟩
      "a".toList none rfl (by decide) (Or.inl rfl)).2.2.2.2,
   (header_markers_sized_to_level ⟨[], none, CMARK_NODE_HEADER, { header := ⟨6⟩ }⟩
      "a".toList none rfl (by decide) (Or.inl rfl)).2.2.2.2⟩

/-! ## Node kinds outside the closed set -/

/-- C9, as the code has it: with `plain` set to the Image at the root, the Enter event on
its child of a kind outside the eighteen returns normally and leaves the buffer `x` and
`plain` as they were; no failure is signalled. -/
theorem unknown_kind_in_plain_mode_is_silent :
    S_render_node ⟨[0], some ⟨[], none, CMARK_NODE_IMAGE, {}⟩, CMARK_NODE_OTHER 0, {}⟩
        CMARK_EVENT_ENTER ⟨"x".toList, some []⟩ = .ok ⟨"x".toList, some []⟩ ∧
    S_render_node ⟨[0], some ⟨[], none, CMARK_NODE_IMAGE, {}⟩, CMARK_NODE_OTHER 0, {}⟩
        CMARK_EVENT_ENTER ⟨"x".toList, some []⟩ ≠ .error .assertion_failed := by
  decide

/-- C9, amended: for every event on a node of a kind outside the eighteen, in normal mode
(`plain` is `NULL`, or is the node itself and is reset) `S_render_node` fails its
assertion and yields no state, hence no output; when `plain` is set to another node the
plain-mode gate returns normally with the buffer and `plain` unchanged. -/
theorem unknown_kind_fails_in_normal_mode (node : cmark_node) (ev_type : cmark_event_type)
    (html : cmark_strbuf) (v : Nat) (h : node.type = CMARK_NODE_OTHER v) :
    (∀ plain : Option cmark_node_ptr, plain = none ∨ plain = some node.ptr →
      S_render_node node ev_type ⟨html, plain⟩ = .error .assertion_failed) ∧
    (∀ a : cmark_node_ptr, a ≠ node.ptr →
      S_render_node node ev_type ⟨html, some a⟩ = .ok ⟨html, some a⟩) := by
  refine ⟨fun plain hplain => ?_, fun a ha => ?_⟩
  · rcases hplain with rfl | rfl <;> simp [S_render_node, h]
  · simp [S_render_node, h, ha]

/-- An Enter event on a node of kind `CMARK_NODE_OTHER 7` with the buffer `x`: failure in
normal mode, a silent return under the anchor `[]`. -/
theorem unknown_kind_fails_in_normal_mode_witness :
    S_render_node ⟨[0], none, CMARK_NODE_OTHER 7, {}⟩ CMARK_EVENT_ENTER ⟨"x".toList, none⟩ =
      .error .assertion_failed ∧
    S_render_node ⟨[0], none, CMARK_NODE_OTHER 7, {}⟩ CMARK_EVENT_ENTER
      ⟨"x".toList, some []⟩ = .ok ⟨"x".toList, some []⟩ :=
  ⟨(unknown_kind_fails_in_normal_mode ⟨[0], none, CMARK_NODE_OTHER 7, {}⟩ CMARK_EVENT_ENTER
      "x".toList 7 rfl).1 none (Or.inl rfl),
   (unknown_kind_fails_in_normal_mode ⟨[0], none, CMARK_NODE_OTHER 7, {}⟩ CMARK_EVENT_ENTER
      "x".toList 7 rfl).2 [] (by decide)⟩

/-! ## Code blocks -/

/-- C5: for a CodeBlock node in normal mode, Enter appends after newline normalization
`<pre><code>` when info is empty, and otherwise `<pre><code class="language-L">` with L the
HTML-escaped longest prefix of info without a space (all of info when it has no space),
then the HTML-escaped literal, then `</code></pre>` and a newline. -/
theorem code_block_enter_output (node : cmark_node) (html : cmark_strbuf)
    (plain : Option cmark_node_ptr) (h : node.type = CMARK_NODE_CODE_BLOCK)
    (hplain : plain = none ∨ plain = some node.ptr) :
    (node.as.code.info = [] →
      S_render_node node CMARK_EVENT_ENTER ⟨html, plain⟩ =
        .ok ⟨cr html ++ "<pre><code>".toList ++
          escape_html [] node.as.literal node.as.literal.length ++
          "</code></pre>\n".toList, none⟩) ∧
    (node.as.code.info ≠ [] →
      S_render_node node CMARK_EVENT_ENTER ⟨html, plain⟩ =
        .ok ⟨cr html ++ "<pre><code class=\"language-".toList ++
          escape_html [] (node.as.code.info.takeWhile (fun c => decide (c ≠ ' ')))
            (node.as.code.info.takeWhile (fun c => decide (c ≠ ' '))).length ++
          "\">".toList ++
          escape_html [] node.as.literal node.as.literal.length ++
          "</code></pre>\n".toList, none⟩) ∧
    (node.as.code.info.takeWhile (fun c => decide (c ≠ ' ')) <+: node.as.code.info ∧
      ' ' ∉ node.as.code.info.takeWhile (fun c => decide (c ≠ ' ')) ∧
      ∀ p : Bytes, p <+: node.as.code.info → ' ' ∉ p →
        p.length ≤ (node.as.code.info.takeWhile (fun c => decide (c ≠ ' '))).length) ∧
    (' ' ∉ node.as.code.info →
      node.as.code.info.takeWhile (fun c => decide (c ≠ ' ')) = node.as.code.info) := by
  refine ⟨fun hi => ?_, fun hi => ?_, ⟨List.takeWhile_prefix _, ?_, fun p hp hsp => ?_⟩,
    fun hsp => ?_⟩
  · rcases hplain with rfl | rfl <;>
      simp +decide [S_render_node, h, hi, puts_lit, escape_html_len]
  · have hlen : node.as.code.info.length ≠ 0 := by simpa using hi
    rcases hplain with rfl | rfl <;>
      simp +decide [S_render_node, h, hlen, puts_lit, escape_html_len, escape_html_first_tag]
  · intro hmem
    have := List.mem_takeWhile_imp hmem
    simp at this
  · apply prefix_length_le_takeWhile _ _ _ hp
    intro x hx
    have : x ≠ ' ' := fun e => hsp (e ▸ hx)
    simpa using this
  · apply List.takeWhile_eq_self_iff.mpr
    intro x hx
    have : x ≠ ' ' := fun e => hsp (e ▸ hx)
    simpa using this

/-- The info string `rust extra` gives the tag `rust`, the empty info no tag, for the
literal `x` and the empty buffer. -/
theorem code_block_enter_output_witness :
    S_render_node ⟨[], none, CMARK_NODE_CODE_BLOCK,
        { literal := "x".toList, code := ⟨"rust extra".toList⟩ }⟩
        CMARK_EVENT_ENTER ⟨[], none⟩ =
      .ok ⟨"<pre><code class=\"language-rust\">x</code></pre>\n".toList, none⟩ ∧
    S_render_node ⟨[], none, CMARK_NODE_CODE_BLOCK, { literal := "x".toList, code := ⟨[]⟩ }⟩
        CMARK_EVENT_ENTER ⟨[], none⟩ =
      .ok ⟨"<pre><code>x</code></pre>\n".toList, none⟩ :=
  ⟨(code_block_enter_output ⟨[], none, CMARK_NODE_CODE_BLOCK,
      { literal := "x".toList, code := ⟨"rust extra".toList⟩ }⟩ [] none rfl
      (Or.inl rfl)).2.1 (by decide),
   (code_block_enter_output ⟨[], none, CMARK_NODE_CODE_BLOCK,
      { literal := "x".toList, code := ⟨[]⟩ }⟩ [] none rfl (Or.inl rfl)).1 rfl⟩

/-! ## Escaped text and raw HTML -/

/-- C4: in normal mode a Text node appends `escape_html` of its literal, in which each of
`<`, `>`, `&` and `"` is replaced by its entity form and none of them remains raw; an
HtmlBlock node appends, after newline normalization, its literal byte for byte, and an
InlineHtml node appends its literal byte for byte. -/
theorem text_is_escaped_html_is_raw (node : cmark_node) (ev_type : cmark_event_type)
    (html : cmark_strbuf) (plain : Option cmark_node_ptr)
    (hplain : plain = none ∨ plain = some node.ptr) :
    (node.type = CMARK_NODE_TEXT →
      S_render_node node ev_type ⟨html, plain⟩ =
        .ok ⟨html ++ escape_html [] node.as.literal node.as.literal.length, none⟩) ∧
    (node.type = CMARK_NODE_HTML →
      S_render_node node ev_type ⟨html, plain⟩ = .ok ⟨cr html ++ node.as.literal, none⟩) ∧
    (node.type = CMARK_NODE_INLINE_HTML →
      S_render_node node ev_type ⟨html, plain⟩ = .ok ⟨html ++ node.as.literal, none⟩) ∧
    escape_html [] node.as.literal node.as.literal.length =
      node.as.literal.flatMap html_escape_byte ∧
    (html_escape_byte '<' = "&lt;".toList ∧ html_escape_byte '>' = "&gt;".toList ∧
      html_escape_byte '&' = "&amp;".toList ∧ html_escape_byte '"' = "&quot;".toList) ∧
    ('<' ∉ escape_html [] node.as.literal node.as.literal.length ∧
      '>' ∉ escape_html [] node.as.literal node.as.literal.length ∧
      '"' ∉ escape_html [] node.as.literal node.as.literal.length ∧
      no_raw_special (escape_html [] node.as.literal node.as.literal.length) = true) := by
  have hesc := escape_html_len [] node.as.literal
  rw [List.nil_append] at hesc
  refine ⟨fun h => ?_, fun h => ?_, fun h => ?_, hesc, by decide, ?_⟩
  · rcases hplain with rfl | rfl <;> simp [S_render_node, h, escape_html_len]
  · rcases hplain with rfl | rfl <;> simp [S_render_node, h, cmark_strbuf_put]
  · rcases hplain with rfl | rfl <;> simp [S_render_node, h, cmark_strbuf_put]
  · rw [hesc]
    exact ⟨not_mem_escaped _ _ (Or.inl rfl), not_mem_escaped _ _ (Or.inr (Or.inl rfl)),
      not_mem_escaped _ _ (Or.inr (Or.inr rfl)), no_raw_special_escaped _⟩

/-- The literal of four hazardous bytes and one letter: escaped for Text, verbatim for
HtmlBlock and InlineHtml, after the buffer `p`. -/
theorem text_is_escaped_html_is_raw_witness :
    S_render_node ⟨[], none, CMARK_NODE_TEXT, { literal := "<a>&\"".toList }⟩
        CMARK_EVENT_ENTER ⟨"p".toList, none⟩ =
      .ok ⟨"p&lt;a&gt;&amp;&quot;".toList, none⟩ ∧
    S_render_node ⟨[], none, CMARK_NODE_HTML, { literal := "<a>&\"".toList }⟩
        CMARK_EVENT_ENTER ⟨"p".toList, none⟩ =
      .ok ⟨"p\n<a>&\"".toList, none⟩ ∧
    S_render_node ⟨[], none, CMARK_NODE_INLINE_HTML, { literal := "<a>&\"".toList }⟩
        CMARK_EVENT_ENTER ⟨"p".toList, none⟩ =
      .ok ⟨"p<a>&\"".toList, none⟩ :=
  ⟨(text_is_escaped_html_is_raw ⟨[], none, CMARK_NODE_TEXT, { literal := "<a>&\"".toList }⟩
      CMARK_EVENT_ENTER "p".toList none (Or.inl rfl)).1 rfl,
   (text_is_escaped_html_is_raw ⟨[], none, CMARK_NODE_HTML, { literal := "<a>&\"".toList }⟩
      CMARK_EVENT_ENTER "p".toList none (Or.inl rfl)).2.1 rfl,
   (text_is_escaped_html_is_raw
      ⟨[], none, CMARK_NODE_INLINE_HTML, { literal := "<a>&\"".toList }⟩
      CMARK_EVENT_ENTER "p".toList none (Or.inl rfl)).2.2.1 rfl⟩

/-! ## Links and images -/

/-- C8: in normal mode, Enter on a Link node appends `[`, the HTML-escaped title if there
is one, `](`, the URL-escaped url if there is one, and `)`, and Exit appends nothing; Enter
on an Image node appends `!` followed by that same sequence and sets `plain` to the node,
and Exit appends nothing. -/
theorem link_and_image_output (node : cmark_node) (html : cmark_strbuf)
    (plain : Option cmark_node_ptr) (hplain : plain = none ∨ plain = some node.ptr) :
    (node.type = CMARK_NODE_LINK →
      S_render_node node CMARK_EVENT_ENTER ⟨html, plain⟩ =
        .ok ⟨html ++ "[".toList ++
          (match node.as.link.title with
            | some title => escape_html [] title (-1)
            | none => []) ++
          "](".toList ++
          (match node.as.link.url with
            | some url => escape_href [] url (-1)
            | none => []) ++
          ")".toList, none⟩ ∧
      S_render_node node CMARK_EVENT_EXIT ⟨html, plain⟩ = .ok ⟨html, none⟩) ∧
    (node.type = CMARK_NODE_IMAGE →
      S_render_node node CMARK_EVENT_ENTER ⟨html, plain⟩ =
        .ok ⟨html ++ "!".toList ++ ("[".toList ++
          (match node.as.link.title with
            | some title => escape_html [] title (-1)
            | none => []) ++
          "](".toList ++
          (match node.as.link.url with
            | some url => escape_href [] url (-1)
            | none => []) ++
          ")".toList), some node.ptr⟩ ∧
      S_render_node node CMARK_EVENT_EXIT ⟨html, plain⟩ = .ok ⟨html, none⟩) := by
  refine ⟨fun h => ⟨?_, ?_⟩, fun h => ⟨?_, ?_⟩⟩
  · rcases ht : node.as.link.title with _ | t <;> rcases hu : node.as.link.url with _ | u <;>
      rcases hplain with rfl | rfl <;>
      simp +decide [S_render_node, h, ht, hu, puts_lit, escape_html, houdini_escape_html0,
        escape_href, houdini_escape_href]
  · rcases hplain with rfl | rfl <;> simp +decide [S_render_node, h]
  · rcases ht : node.as.link.title with _ | t <;> rcases hu : node.as.link.url with _ | u <;>
      rcases hplain with rfl | rfl <;>
      simp +decide [S_render_node, h, ht, hu, puts_lit, escape_html, houdini_escape_html0,
        escape_href, houdini_escape_href]
  · rcases hplain with rfl | rfl <;> simp +decide [S_render_node, h]

/-- A Link and an Image with title `t` and url `u`, after the buffer `p`. -/
theorem link_and_image_output_witness :
    S_render_node ⟨[], none, CMARK_NODE_LINK, { link := ⟨some "u".toList, some "t".toList⟩ }⟩
        CMARK_EVENT_ENTER ⟨"p".toList, none⟩ = .ok ⟨"p[t](u)".toList, none⟩ ∧
    S_render_node ⟨[], none, CMARK_NODE_IMAGE, { link := ⟨some "u".toList, some "t".toList⟩ }⟩
        CMARK_EVENT_ENTER ⟨"p".toList, none⟩ = .ok ⟨"p![t](u)".toList, some []⟩ ∧
    S_render_node ⟨[], none, CMARK_NODE_IMAGE, { link := ⟨some "u".toList, some "t".toList⟩ }⟩
        CMARK_EVENT_EXIT ⟨"p".toList, some []⟩ = .ok ⟨"p".toList, none⟩ :=
  ⟨((link_and_image_output
      ⟨[], none, CMARK_NODE_LINK, { link := ⟨some "u".toList, some "t".toList⟩ }⟩
      "p".toList none (Or.inl rfl)).1 rfl).1,
   ((link_and_image_output
      ⟨[], none, CMARK_NODE_IMAGE, { link := ⟨some "u".toList, some "t".toList⟩ }⟩
      "p".toList none (Or.inl rfl)).2 rfl).1,
   ((link_and_image_output
      ⟨[], none, CMARK_NODE_IMAGE, { link := ⟨some "u".toList, some "t".toList⟩ }⟩
      "p".toList (some []) (Or.inr rfl)).2 rfl).2⟩

/-! ## Paragraphs and tight lists -/

/-- C2: for a Paragraph node in normal mode, when the grandparent is a List with tight set,
Enter and Exit leave the buffer unchanged; when there is no grandparent, or it is not a
List, or its tight is not set, Enter appends the newline normalization and the marker of one
newline, and Exit appends one newline.  The tree List, Item, Paragraph, Text `x` renders as
the list-open marker, `x`, the item-close and list-close markers when the list is tight, and
with one newline marker before and one after `x` when it is not (the text once per event of
the Text node). -/
theorem paragraph_tight_suppression (node : cmark_node) (html : cmark_strbuf)
    (plain : Option cmark_node_ptr) (h : node.type = CMARK_NODE_PARAGRAPH)
    (hplain : plain = none ∨ plain = some node.ptr) :
    (∀ g : cmark_node, cmark_node_parent (cmark_node_parent (some node)) = some g →
      g.type = CMARK_NODE_LIST → g.as.list.tight = true →
      S_render_node node CMARK_EVENT_ENTER ⟨html, plain⟩ = .ok ⟨html, none⟩ ∧
      S_render_node node CMARK_EVENT_EXIT ⟨html, plain⟩ = .ok ⟨html, none⟩) ∧
    (cmark_node_parent (cmark_node_parent (some node)) = none →
      S_render_node node CMARK_EVENT_ENTER ⟨html, plain⟩ =
        .ok ⟨cr html ++ "\n".toList, none⟩ ∧
      S_render_node node CMARK_EVENT_EXIT ⟨html, plain⟩ = .ok ⟨html ++ "\n".toList, none⟩) ∧
    (∀ g : cmark_node, cmark_node_parent (cmark_node_parent (some node)) = some g →
      g.type ≠ CMARK_NODE_LIST ∨ g.as.list.tight = false →
      S_render_node node CMARK_EVENT_ENTER ⟨html, plain⟩ =
        .ok ⟨cr html ++ "\n".toList, none⟩ ∧
      S_render_node node CMARK_EVENT_EXIT ⟨html, plain⟩ = .ok ⟨html ++ "\n".toList, none⟩) ∧
    (∀ leaf_exit : Bool,
      cmark_render_markdown leaf_exit
        (.mk CMARK_NODE_LIST { list := ⟨CMARK_BULLET_LIST, 0, true⟩ }
          [.mk CMARK_NODE_ITEM {}
            [.mk CMARK_NODE_PARAGRAPH {} [.mk CMARK_NODE_TEXT { literal := "x".toList } []]]]) 0 =
        .ok ("<ul>\n".toList ++ (if leaf_exit then "xx".toList else "x".toList) ++
          "</li>\n".toList ++ "</ul>\n".toList) ∧
      cmark_render_markdown leaf_exit
        (.mk CMARK_NODE_LIST { list := ⟨CMARK_BULLET_LIST, 0, false⟩ }
          [.mk CMARK_NODE_ITEM {}
            [.mk CMARK_NODE_PARAGRAPH {} [.mk CMARK_NODE_TEXT { literal := "x".toList } []]]]) 0 =
        .ok ("<ul>\n".toList ++ "\n".toList ++
          (if leaf_exit then "xx".toList else "x".toList) ++ "\n".toList ++
          "</li>\n".toList ++ "</ul>\n".toList)) := by
  refine ⟨fun g hg hl ht => ⟨?_, ?_⟩, fun hg => ⟨?_, ?_⟩, fun g hg hno => ⟨?_, ?_⟩, ?_⟩
  · rcases hplain with rfl | rfl <;> simp [S_render_node, h, hg, hl, ht]
  · rcases hplain with rfl | rfl <;> simp [S_render_node, h, hg, hl, ht]
  · rcases hplain with rfl | rfl <;> simp +decide [S_render_node, h, hg, puts_lit]
  · rcases hplain with rfl | rfl <;> simp +decide [S_render_node, h, hg, puts_lit]
  · rcases hno with hno | hno <;> rcases hplain with rfl | rfl <;>
      simp +decide [S_render_node, h, hg, hno, puts_lit]
  · rcases hno with hno | hno <;> rcases hplain with rfl | rfl <;>
      simp +decide [S_render_node, h, hg, hno, puts_lit]
  · decide

/-- The Paragraph at `[0, 0]` under the Item `[0]` of a tight list leaves the buffer `a` as
it is on Enter and Exit; under a list that is not tight Enter gives `a`, a newline from the
normalization and the marker, and Exit appends the marker. -/
theorem paragraph_tight_suppression_witness :
    (S_render_node
        ⟨[0, 0], some ⟨[0], some ⟨[], none, CMARK_NODE_LIST,
          { list := ⟨CMARK_BULLET_LIST, 0, true⟩ }⟩, CMARK_NODE_ITEM, {}⟩,
          CMARK_NODE_PARAGRAPH, {}⟩ CMARK_EVENT_ENTER ⟨"a".toList, none⟩ =
        .ok ⟨"a".toList, none⟩ ∧
      S_render_node
        ⟨[0, 0], some ⟨[0], some ⟨[], none, CMARK_NODE_LIST,
          { list := ⟨CMARK_BULLET_LIST, 0, true⟩ }⟩, CMARK_NODE_ITEM, {}⟩,
          CMARK_NODE_PARAGRAPH, {}⟩ CMARK_EVENT_EXIT ⟨"a".toList, none⟩ =
        .ok ⟨"a".toList, none⟩) ∧
    (S_render_node
        ⟨[0, 0], some ⟨[0], some ⟨[], none, CMARK_NODE_LIST,
          { list := ⟨CMARK_BULLET_LIST, 0, false⟩ }⟩, CMARK_NODE_ITEM, {}⟩,
          CMARK_NODE_PARAGRAPH, {}⟩ CMARK_EVENT_ENTER ⟨"a".toList, none⟩ =
        .ok ⟨"a\n\n".toList, none⟩ ∧
      S_render_node
        ⟨[0, 0], some ⟨[0], some ⟨[], none, CMARK_NODE_LIST,
          { list := ⟨CMARK_BULLET_LIST, 0, false⟩ }⟩, CMARK_NODE_ITEM, {}⟩,
          CMARK_NODE_PARAGRAPH, {}⟩ CMARK_EVENT_EXIT ⟨"a".toList, none⟩ =
        .ok ⟨"a\n".toList, none⟩) :=
  ⟨(paragraph_tight_suppression
      ⟨[0, 0], some ⟨[0], some ⟨[], none, CMARK_NODE_LIST,
        { list := ⟨CMARK_BULLET_LIST, 0, true⟩ }⟩, CMARK_NODE_ITEM, {}⟩,
        CMARK_NODE_PARAGRAPH, {}⟩ "a".toList none rfl (Or.inl rfl)).1
      ⟨[], none, CMARK_NODE_LIST, { list := ⟨CMARK_BULLET_LIST, 0, true⟩ }⟩ rfl rfl rfl,
   (paragraph_tight_suppression
      ⟨[0, 0], some ⟨[0], some ⟨[], none, CMARK_NODE_LIST,
        { list := ⟨CMARK_BULLET_LIST, 0, false⟩ }⟩, CMARK_NODE_ITEM, {}⟩,
        CMARK_NODE_PARAGRAPH, {}⟩ "a".toList none rfl (Or.inl rfl)).2.2.1
      ⟨[], none, CMARK_NODE_LIST, { list := ⟨CMARK_BULLET_LIST, 0, false⟩ }⟩ rfl
      (Or.inr rfl)⟩

/-! ## Whole documents -/

/-- C3, as the code has it: the Document with one Paragraph holding the Text `Hello`
renders as a newline, the text and a newline (the text twice when the traversal also
delivers Exit for the leaf); the result begins with a newline and is not the text followed
by one newline. -/
theorem paragraph_document_has_leading_newline :
    cmark_render_markdown false
        (.mk CMARK_NODE_DOCUMENT {}
          [.mk CMARK_NODE_PARAGRAPH {} [.mk CMARK_NODE_TEXT { literal := "Hello".toList } []]])
        0 = .ok "\nHello\n".toList ∧
    cmark_render_markdown true
        (.mk CMARK_NODE_DOCUMENT {}
          [.mk CMARK_NODE_PARAGRAPH {} [.mk CMARK_NODE_TEXT { literal := "Hello".toList } []]])
        0 = .ok "\nHelloHello\n".toList ∧
    cmark_render_markdown false
        (.mk CMARK_NODE_DOCUMENT {}
          [.mk CMARK_NODE_PARAGRAPH {} [.mk CMARK_NODE_TEXT { literal := "Hello".toList } []]])
        0 ≠ .ok "Hello\n".toList ∧
    cmark_render_markdown true
        (.mk CMARK_NODE_DOCUMENT {}
          [.mk CMARK_NODE_PARAGRAPH {} [.mk CMARK_NODE_TEXT { literal := "Hello".toList } []]])
        0 ≠ .ok "Hello\n".toList := by
  decide

/-- C3, amended: for every Document whose only child is a Paragraph holding a single Text
node with literal s, `cmark_render_markdown` returns one newline marker, the HTML-escaped s
(once for each event the traversal delivers for the Text node), and exactly one newline
marker; the result begins with a newline. -/
theorem paragraph_document_output (leaf_exit : Bool) (document paragraph text : cmark_node_as)
    (options : Int) :
    cmark_render_markdown leaf_exit
        (.mk CMARK_NODE_DOCUMENT document
          [.mk CMARK_NODE_PARAGRAPH paragraph [.mk CMARK_NODE_TEXT text []]]) options =
      .ok ("\n".toList ++ escape_html [] text.literal text.literal.length ++
        (if leaf_exit then escape_html [] text.literal text.literal.length else []) ++
        "\n".toList) := by
  have hesc := escape_html_len [] text.literal
  rw [List.nil_append] at hesc
  rw [hesc]
  cases leaf_exit <;>
    simp +decide [cmark_render_markdown, cmark_iter_events, cmark_iter_children, render_loop,
      is_leaf_kind, S_render_node, cmark_node_parent, puts_lit, escape_html_len, cr,
      cmark_strbuf_detach]

/-! ## Images -/

/-- C1, as the code has it: the Image with url `u` and title `t` over Strong over the Text
`b` renders as the whole image syntax followed by the text (the text twice when the
traversal also delivers Exit for the leaf); the result does not begin with the text. -/
theorem image_syntax_precedes_child_text :
    cmark_render_markdown false
        (.mk CMARK_NODE_IMAGE { link := ⟨some "u".toList, some "t".toList⟩ }
          [.mk CMARK_NODE_STRONG {} [.mk CMARK_NODE_TEXT { literal := "b".toList } []]])
        0 = .ok "![t](u)b".toList ∧
    cmark_render_markdown true
        (.mk CMARK_NODE_IMAGE { link := ⟨some "u".toList, some "t".toList⟩ }
          [.mk CMARK_NODE_STRONG {} [.mk CMARK_NODE_TEXT { literal := "b".toList } []]])
        0 = .ok "![t](u)bb".toList ∧
    cmark_render_markdown false
        (.mk CMARK_NODE_IMAGE { link := ⟨some "u".toList, some "t".toList⟩ }
          [.mk CMARK_NODE_STRONG {} [.mk CMARK_NODE_TEXT { literal := "b".toList } []]])
        0 ≠ .ok "b![t](u)".toList ∧
    ¬ ("b".toList <+: "![t](u)b".toList) ∧ ¬ ("b".toList <+: "![t](u)bb".toList) := by
  decide

/-- C1, amended: for every Image node with url u and title t whose child is a Strong node
holding Text(b), `cmark_render_markdown` on the Image yields the image syntax, `![`, the
HTML-escaped title, `](`, the URL-escaped url and `)`, followed by the HTML-escaped text b
with no Strong markers (the text once for each event the traversal delivers for the Text
node). -/
theorem image_with_strong_child_output (leaf_exit : Bool) (image strong text : cmark_node_as)
    (u t : Bytes) (options : Int) :
    cmark_render_markdown leaf_exit
        (.mk CMARK_NODE_IMAGE { image with link := ⟨some u, some t⟩ }
          [.mk CMARK_NODE_STRONG strong [.mk CMARK_NODE_TEXT text []]]) options =
      .ok ("![".toList ++ escape_html [] t (-1) ++ "](".toList ++ escape_href [] u (-1) ++
        ")".toList ++ escape_html [] text.literal text.literal.length ++
        (if leaf_exit then escape_html [] text.literal text.literal.length else [])) := by
  have hesc := escape_html_len [] text.literal
  rw [List.nil_append] at hesc
  rw [hesc]
  cases leaf_exit <;>
    simp +decide [cmark_render_markdown, cmark_iter_events, cmark_iter_children, render_loop,
      is_leaf_kind, S_render_node, puts_lit, escape_html_len, cmark_strbuf_detach,
      escape_html_neg, escape_href, houdini_escape_href]

/-! ## Idempotence of the newline normalizer -/

/-- C11: for every buffer `b`, normalizing twice gives the same buffer as normalizing once:
`cr (cr b) = cr b`. -/
theorem cr_idempotent (b : cmark_strbuf) : cr (cr b) = cr b := by
  by_cases h : b ≠ [] ∧ b.getLast? ≠ some '\n'
  · have h1 : cr b = b ++ ['\n'] := by rw [cr_eq, if_pos h]
    rw [h1, cr_append_newline]
  · have h1 : cr b = b := by rw [cr_eq, if_neg h]
    rw [h1, h1]

/-! ## The plain-mode gate -/

/-- C13: in a state whose `plain` is a node `a` other than the node of the event, for either
phase, a LineBreak or SoftBreak node appends exactly one space, a node of any kind other
than Text, Code, InlineHtml, LineBreak and SoftBreak leaves the buffer unchanged, and in
every case the call returns with `plain` still `a`. -/
theorem plain_mode_gate (node : cmark_node) (ev_type : cmark_event_type)
    (html : cmark_strbuf) (a : cmark_node_ptr) (ha : a ≠ node.ptr) :
    (node.type = CMARK_NODE_LINEBREAK ∨ node.type = CMARK_NODE_SOFTBREAK →
      S_render_node node ev_type ⟨html, some a⟩ = .ok ⟨html ++ [' '], some a⟩) ∧
    (node.type ≠ CMARK_NODE_TEXT → node.type ≠ CMARK_NODE_CODE →
      node.type ≠ CMARK_NODE_INLINE_HTML → node.type ≠ CMARK_NODE_LINEBREAK →
      node.type ≠ CMARK_NODE_SOFTBREAK →
      S_render_node node ev_type ⟨html, some a⟩ = .ok ⟨html, some a⟩) ∧
    (∃ html' : cmark_strbuf,
      S_render_node node ev_type ⟨html, some a⟩ = .ok ⟨html', some a⟩) := by
  refine ⟨fun h => ?_, fun h1 h2 h3 h4 h5 => ?_, ?_⟩
  · rcases h with h | h <;> simp [S_render_node, h, ha, cmark_strbuf_putc]
  · cases hty : node.type <;> simp_all [S_render_node]
  · cases hty : node.type <;> simp [S_render_node, hty, ha]

/-- Under the anchor `[]`, with the buffer `p`: a SoftBreak gives one space, and Strong, a
nested Image and a Paragraph are no-ops. -/
theorem plain_mode_gate_witness :
    S_render_node ⟨[0], none, CMARK_NODE_SOFTBREAK, {}⟩ CMARK_EVENT_ENTER
        ⟨"p".toList, some []⟩ = .ok ⟨"p ".toList, some []⟩ ∧
    S_render_node ⟨[0], none, CMARK_NODE_STRONG, {}⟩ CMARK_EVENT_EXIT
        ⟨"p".toList, some []⟩ = .ok ⟨"p".toList, some []⟩ ∧
    S_render_node ⟨[0], none, CMARK_NODE_IMAGE, { link := ⟨some "u".toList, some "t".toList⟩ }⟩
        CMARK_EVENT_ENTER ⟨"p".toList, some []⟩ = .ok ⟨"p".toList, some []⟩ ∧
    S_render_node ⟨[0], none, CMARK_NODE_PARAGRAPH, {}⟩ CMARK_EVENT_ENTER
        ⟨"p".toList, some []⟩ = .ok ⟨"p".toList, some []⟩ :=
  ⟨(plain_mode_gate ⟨[0], none, CMARK_NODE_SOFTBREAK, {}⟩ CMARK_EVENT_ENTER "p".toList []
      (by decide)).1 (Or.inr rfl),
   (plain_mode_gate ⟨[0], none, CMARK_NODE_STRONG, {}⟩ CMARK_EVENT_EXIT "p".toList []
      (by decide)).2.1 (by decide) (by decide) (by decide) (by decide) (by decide),
   (plain_mode_gate
      ⟨[0], none, CMARK_NODE_IMAGE, { link := ⟨some "u".toList, some "t".toList⟩ }⟩
      CMARK_EVENT_ENTER "p".toList [] (by decide)).2.1
      (by decide) (by decide) (by decide) (by decide) (by decide),
   (plain_mode_gate ⟨[0], none, CMARK_NODE_PARAGRAPH, {}⟩ CMARK_EVENT_ENTER "p".toList []
      (by decide)).2.1 (by decide) (by decide) (by decide) (by decide) (by decide)⟩

/-- C14, as the code has it: under the anchor `[]`, the Exit event on the Text node `b`
appends the escaped literal to the buffer `p` just as the Enter event does, and Enter
followed by Exit puts the literal into the output twice. -/
theorem plain_mode_leaf_exit_appends_literal :
    S_render_node ⟨[0], none, CMARK_NODE_TEXT, { literal := "b".toList }⟩ CMARK_EVENT_EXIT
        ⟨"p".toList, some []⟩ = .ok ⟨"pb".toList, some []⟩ ∧
    S_render_node ⟨[0], none, CMARK_NODE_TEXT, { literal := "b".toList }⟩ CMARK_EVENT_EXIT
        ⟨"p".toList, some []⟩ ≠ .ok ⟨"p".toList, some []⟩ ∧
    render_loop
        [(⟨[0], none, CMARK_NODE_TEXT, { literal := "b".toList }⟩, CMARK_EVENT_ENTER),
         (⟨[0], none, CMARK_NODE_TEXT, { literal := "b".toList }⟩, CMARK_EVENT_EXIT)]
        ⟨"p".toList, some []⟩ = .ok ⟨"pbb".toList, some []⟩ := by
  decide

/-- C14, amended: in a state whose `plain` is a node `a` other than the node of the event, a
Text, Code or InlineHtml node appends its HTML-escaped literal on every event, Enter and
Exit alike; the literal appears once when one event is delivered for the leaf and twice
when Enter and Exit are both delivered. -/
theorem plain_mode_leaf_appends_on_every_event (node : cmark_node)
    (html : cmark_strbuf) (a : cmark_node_ptr) (ha : a ≠ node.ptr)
    (h : node.type = CMARK_NODE_TEXT ∨ node.type = CMARK_NODE_CODE ∨
      node.type = CMARK_NODE_INLINE_HTML) :
    (∀ ev_type : cmark_event_type,
      S_render_node node ev_type ⟨html, some a⟩ =
        .ok ⟨html ++ escape_html [] node.as.literal node.as.literal.length, some a⟩) ∧
    render_loop [(node, CMARK_EVENT_ENTER)] ⟨html, some a⟩ =
      .ok ⟨html ++ escape_html [] node.as.literal node.as.literal.length, some a⟩ ∧
    render_loop [(node, CMARK_EVENT_ENTER), (node, CMARK_EVENT_EXIT)] ⟨html, some a⟩ =
      .ok ⟨html ++ escape_html [] node.as.literal node.as.literal.length ++
        escape_html [] node.as.literal node.as.literal.length, some a⟩ := by
  have key : ∀ (ev_type : cmark_event_type) (buf : cmark_strbuf),
      S_render_node node ev_type ⟨buf, some a⟩ =
        .ok ⟨buf ++ escape_html [] node.as.literal node.as.literal.length, some a⟩ := by
    intro ev_type buf
    rcases h with h | h | h <;> simp [S_render_node, h, ha, escape_html_len]
  refine ⟨fun ev_type => key ev_type html, ?_, ?_⟩
  · simp [render_loop, key]
  · simp [render_loop, key]

/-- Under the anchor `[]`, the Code node `b` and the buffer `p`: each event appends `b`. -/
theorem plain_mode_leaf_appends_on_every_event_witness :
    S_render_node ⟨[0], none, CMARK_NODE_CODE, { literal := "b".toList }⟩ CMARK_EVENT_ENTER
        ⟨"p".toList, some []⟩ = .ok ⟨"pb".toList, some []⟩ ∧
    S_render_node ⟨[0], none, CMARK_NODE_CODE, { literal := "b".toList }⟩ CMARK_EVENT_EXIT
        ⟨"p".toList, some []⟩ = .ok ⟨"pb".toList, some []⟩ :=
  ⟨(plain_mode_leaf_appends_on_every_event
      ⟨[0], none, CMARK_NODE_CODE, { literal := "b".toList }⟩ "p".toList [] (by decide)
      (Or.inr (Or.inl rfl))).1 CMARK_EVENT_ENTER,
   (plain_mode_leaf_appends_on_every_event
      ⟨[0], none, CMARK_NODE_CODE, { literal := "b".toList }⟩ "p".toList [] (by decide)
      (Or.inr (Or.inl rfl))).1 CMARK_EVENT_EXIT⟩

theorem code_block_enter_nonempty (node : cmark_node) (html : cmark_strbuf)
    (plain : Option cmark_node_ptr) (h : node.type = CMARK_NODE_CODE_BLOCK)
    (hplain : plain = none ∨ plain = some node.ptr) :
    ∃ out : Bytes, out ≠ [] ∧
      S_render_node node CMARK_EVENT_ENTER ⟨html, plain⟩ = .ok ⟨cr html ++ out, none⟩ := by
  by_cases hi : node.as.code.info.length = 0
  · refine ⟨"<pre><code>".toList ++ node.as.literal.flatMap html_escape_byte ++
      "</code></pre>\n".toList, by simp, ?_⟩
    rcases hplain with rfl | rfl <;>
      simp +decide [S_render_node, h, hi, puts_lit, escape_html_len]
  · refine ⟨"<pre><code class=\"language-".toList ++
      (node.as.code.info.takeWhile (fun c => decide (c ≠ ' '))).flatMap html_escape_byte ++
      "\">".toList ++ node.as.literal.flatMap html_escape_byte ++
      "</code></pre>\n".toList, by simp, ?_⟩
    rcases hplain with rfl | rfl <;>
      simp +decide [S_render_node, h, hi, puts_lit, escape_html_len, escape_html_first_tag]

/-! ## Leaf blocks on the Exit event -/

/-- C15, as the code has it: in normal mode the Exit event on a Rule, an HtmlBlock and a
CodeBlock node appends to the buffer `a` what the Enter event appends; the buffer is not
left unchanged. -/
theorem leaf_block_exit_appends_output :
    S_render_node ⟨[0], none, CMARK_NODE_HRULE, {}⟩ CMARK_EVENT_EXIT ⟨"a".toList, none⟩ =
      .ok ⟨"a\n------\n".toList, none⟩ ∧
    S_render_node ⟨[0], none, CMARK_NODE_HTML, { literal := "<b>".toList }⟩ CMARK_EVENT_EXIT
        ⟨"a".toList, none⟩ = .ok ⟨"a\n<b>".toList, none⟩ ∧
    S_render_node ⟨[0], none, CMARK_NODE_CODE_BLOCK, { literal := "x".toList }⟩
        CMARK_EVENT_EXIT ⟨"a".toList, none⟩ =
      .ok ⟨"a\n<pre><code>x</code></pre>\n".toList, none⟩ ∧
    S_render_node ⟨[0], none, CMARK_NODE_HRULE, {}⟩ CMARK_EVENT_EXIT ⟨"a".toList, none⟩ ≠
      .ok ⟨"a".toList, none⟩ := by
  decide

/-- C15, amended: in normal mode, for every CodeBlock, HtmlBlock or Rule node and every
buffer, `S_render_node` does not test the phase: an Exit event appends exactly what an
Enter event appends (for a Rule the newline normalization and the rule marker, for an
HtmlBlock the newline normalization and the literal), so the output of the node is produced
once for each event delivered for it. -/
theorem leaf_block_output_on_every_event (node : cmark_node) (html : cmark_strbuf)
    (plain : Option cmark_node_ptr) (hplain : plain = none ∨ plain = some node.ptr)
    (h : node.type = CMARK_NODE_CODE_BLOCK ∨ node.type = CMARK_NODE_HTML ∨
      node.type = CMARK_NODE_HRULE) :
    (∀ ev_type : cmark_event_type,
      S_render_node node ev_type ⟨html, plain⟩ =
        S_render_node node CMARK_EVENT_ENTER ⟨html, plain⟩) ∧
    (node.type = CMARK_NODE_HRULE →
      S_render_node node CMARK_EVENT_EXIT ⟨html, plain⟩ =
        .ok ⟨cr html ++ "------\n".toList, none⟩) ∧
    (node.type = CMARK_NODE_HTML →
      S_render_node node CMARK_EVENT_EXIT ⟨html, plain⟩ =
        .ok ⟨cr html ++ node.as.literal, none⟩) ∧
    (node.type = CMARK_NODE_CODE_BLOCK →
      ∃ out : Bytes, out ≠ [] ∧
        S_render_node node CMARK_EVENT_EXIT ⟨html, plain⟩ = .ok ⟨cr html ++ out, none⟩) := by
  refine ⟨fun ev_type => ?_, fun hr => ?_, fun hh => ?_, fun hc => ?_⟩
  · rcases h with h | h | h <;> simp [S_render_node, h]
  · rcases hplain with rfl | rfl <;> simp +decide [S_render_node, hr, puts_lit]
  · rcases hplain with rfl | rfl <;> simp [S_render_node, hh, cmark_strbuf_put]
  · have hE := (code_block_enter_nonempty node html plain hc hplain)
    obtain ⟨out, hne, hout⟩ := hE
    refine ⟨out, hne, ?_⟩
    rw [← hout]
    simp [S_render_node, hc]

/-- A Rule on the buffer `a`: Exit gives the same state as Enter, the rule marker on a new
line. -/
theorem leaf_block_output_on_every_event_witness :
    S_render_node ⟨[0], none, CMARK_NODE_HRULE, {}⟩ CMARK_EVENT_EXIT ⟨"a".toList, none⟩ =
      S_render_node ⟨[0], none, CMARK_NODE_HRULE, {}⟩ CMARK_EVENT_ENTER ⟨"a".toList, none⟩ ∧
    S_render_node ⟨[0], none, CMARK_NODE_HRULE, {}⟩ CMARK_EVENT_EXIT ⟨"a".toList, none⟩ =
      .ok ⟨"a\n------\n".toList, none⟩ :=
  ⟨(leaf_block_output_on_every_event ⟨[0], none, CMARK_NODE_HRULE, {}⟩ "a".toList none
      (Or.inl rfl) (Or.inr (Or.inr rfl))).1 CMARK_EVENT_EXIT,
   (leaf_block_output_on_every_event ⟨[0], none, CMARK_NODE_HRULE, {}⟩ "a".toList none
      (Or.inl rfl) (Or.inr (Or.inr rfl))).2.1 rfl⟩

/-! ## Block markers and fresh lines -/

theorem cr_fresh_line (html : cmark_strbuf) :
    (cr html = [] ∨ (cr html).getLast? = some '\n') ∧
    (cr html = html ∨ cr html = html ++ ['\n']) := by
  by_cases h : html ≠ [] ∧ html.getLast? ≠ some '\n'
  · have h1 : cr html = html ++ ['\n'] := by rw [cr_eq, if_pos h]
    rw [h1]
    simp
  · have h1 : cr html = html := by rw [cr_eq, if_neg h]
    rw [h1]
    refine ⟨?_, Or.inl rfl⟩
    by_cases he : html = []
    · exact Or.inl he
    · right
      by_contra hl
      exact h ⟨he, hl⟩

/-- C16, as the code has it: in normal mode the Exit event on an Item and on a List node
appends the close marker directly after the buffer `x`, with no newline before it: the
marker starts neither at the beginning of the output nor after a newline. -/
theorem item_and_list_close_not_on_fresh_line :
    S_render_node ⟨[0], none, CMARK_NODE_ITEM, {}⟩ CMARK_EVENT_EXIT ⟨"x".toList, none⟩ =
      .ok ⟨"x</li>\n".toList, none⟩ ∧
    S_render_node ⟨[], none, CMARK_NODE_LIST, {}⟩ CMARK_EVENT_EXIT ⟨"x".toList, none⟩ =
      .ok ⟨"x</ul>\n".toList, none⟩ ∧
    block_marker ⟨[0], none, CMARK_NODE_ITEM, {}⟩ CMARK_EVENT_EXIT = .ok "</li>\n".toList ∧
    block_marker ⟨[], none, CMARK_NODE_LIST, {}⟩ CMARK_EVENT_EXIT = .ok "</ul>\n".toList ∧
    "x".toList ≠ [] ∧ "x".toList.getLast? ≠ some '\n' := by
  decide

/-- C16, amended: in normal mode, for every buffer, the marker appended on Enter of a
BlockQuote, List, Item, Header, CodeBlock, HtmlBlock or Rule node and on Exit of a
BlockQuote node follows the normalized buffer, which is empty or ends in a newline and
is the buffer itself or the buffer with one newline added; the close markers of List and
Item (Exit) are appended directly after the buffer, without normalization. -/
theorem block_markers_follow_normalized_buffer (node : cmark_node) (html : cmark_strbuf)
    (plain : Option cmark_node_ptr) (hplain : plain = none ∨ plain = some node.ptr) :
    (node.type = CMARK_NODE_BLOCK_QUOTE ∨ node.type = CMARK_NODE_LIST ∨
      node.type = CMARK_NODE_ITEM ∨ node.type = CMARK_NODE_HEADER ∨
      node.type = CMARK_NODE_CODE_BLOCK ∨ node.type = CMARK_NODE_HTML ∨
      node.type = CMARK_NODE_HRULE →
      result_html (S_render_node node CMARK_EVENT_ENTER ⟨html, plain⟩) =
        marker_after (cr html) (block_marker node CMARK_EVENT_ENTER)) ∧
    (node.type = CMARK_NODE_BLOCK_QUOTE →
      result_html (S_render_node node CMARK_EVENT_EXIT ⟨html, plain⟩) =
        marker_after (cr html) (block_marker node CMARK_EVENT_EXIT)) ∧
    ((cr html = [] ∨ (cr html).getLast? = some '\n') ∧
      (cr html = html ∨ cr html = html ++ ['\n'])) ∧
    (node.type = CMARK_NODE_LIST ∨ node.type = CMARK_NODE_ITEM →
      result_html (S_render_node node CMARK_EVENT_EXIT ⟨html, plain⟩) =
        marker_after html (block_marker node CMARK_EVENT_EXIT)) := by
  have hcr : cr ([] : cmark_strbuf) = [] := by decide
  refine ⟨fun h => ?_, fun h => ?_, cr_fresh_line html, fun h => ?_⟩
  · rcases h with h | h | h | h | h | h | h
    · rcases hplain with rfl | rfl <;>
        simp +decide [result_html, marker_after, block_marker, S_render_node, h, puts_lit, hcr]
    · rcases hplain with rfl | rfl <;>
        by_cases hb : node.as.list.list_type = CMARK_BULLET_LIST <;>
        by_cases h1 : node.as.list.start = 1 <;>
        simp +decide [result_html, marker_after, block_marker, S_render_node, h, puts_lit, hcr,
          hb, h1, cmark_strbuf_printf]
    · rcases hplain with rfl | rfl <;>
        simp +decide [result_html, marker_after, block_marker, S_render_node, h, puts_lit, hcr]
    · rcases hplain with rfl | rfl <;>
        cases harr : array_store start_header_init node.as.header.level NUL <;>
        simp +decide [result_html, marker_after, block_marker, S_render_node, h, hcr, harr,
          cmark_strbuf_puts, cmark_strbuf_put]
    · rcases hplain with rfl | rfl <;>
        by_cases hi : node.as.code.info.length = 0 <;>
        simp +decide [result_html, marker_after, block_marker, S_render_node, h, puts_lit, hcr,
          hi, escape_html_len, escape_html_first_tag]
    · rcases hplain with rfl | rfl <;>
        simp +decide [result_html, marker_after, block_marker, S_render_node, h, hcr,
          cmark_strbuf_put]
    · rcases hplain with rfl | rfl <;>
        simp +decide [result_html, marker_after, block_marker, S_render_node, h, puts_lit, hcr]
  · rcases hplain with rfl | rfl <;>
      simp +decide [result_html, marker_after, block_marker, S_render_node, h, puts_lit, hcr]
  · rcases h with h | h
    · rcases hplain with rfl | rfl <;>
        by_cases hb : node.as.list.list_type = CMARK_BULLET_LIST <;>
        simp +decide [result_html, marker_after, block_marker, S_render_node, h, puts_lit, hb]
    · rcases hplain with rfl | rfl <;>
        simp +decide [result_html, marker_after, block_marker, S_render_node, h, puts_lit]

/-- A BlockQuote on the buffer `x`: both markers come after one added newline; an Item on
`x`: the close marker comes directly after it. -/
theorem block_markers_follow_normalized_buffer_witness :
    result_html (S_render_node ⟨[0], none, CMARK_NODE_BLOCK_QUOTE, {}⟩ CMARK_EVENT_ENTER
        ⟨"x".toList, none⟩) = .ok "x\n<blockquote>\n".toList ∧
    result_html (S_render_node ⟨[0], none, CMARK_NODE_BLOCK_QUOTE, {}⟩ CMARK_EVENT_EXIT
        ⟨"x".toList, none⟩) = .ok "x\n</blockquote>\n".toList ∧
    result_html (S_render_node ⟨[0], none, CMARK_NODE_ITEM, {}⟩ CMARK_EVENT_EXIT
        ⟨"x".toList, none⟩) = .ok "x</li>\n".toList :=
  ⟨(block_markers_follow_normalized_buffer ⟨[0], none, CMARK_NODE_BLOCK_QUOTE, {}⟩
      "x".toList none (Or.inl rfl)).1 (Or.inl rfl),
   (block_markers_follow_normalized_buffer ⟨[0], none, CMARK_NODE_BLOCK_QUOTE, {}⟩
      "x".toList none (Or.inl rfl)).2.1 rfl,
   (block_markers_follow_normalized_buffer ⟨[0], none, CMARK_NODE_ITEM, {}⟩
      "x".toList none (Or.inl rfl)).2.2.2 (Or.inr rfl)⟩

/-! ## List items -/

/-- C17, the code at the failing input: in normal mode the Enter event on an Item node only
normalizes the newline, its item-open marker being the empty string, while the Exit event
appends the item-close marker; the tight list with one item of text `x` renders with an
item-close marker and no item-open marker. -/
theorem item_open_marker_is_empty :
    S_render_node ⟨[0], none, CMARK_NODE_ITEM, {}⟩ CMARK_EVENT_ENTER ⟨"a".toList, none⟩ =
      .ok ⟨"a\n".toList, none⟩ ∧
    block_marker ⟨[0], none, CMARK_NODE_ITEM, {}⟩ CMARK_EVENT_ENTER = .ok [] ∧
    S_render_node ⟨[0], none, CMARK_NODE_ITEM, {}⟩ CMARK_EVENT_EXIT ⟨"a".toList, none⟩ =
      .ok ⟨"a</li>\n".toList, none⟩ ∧
    cmark_render_markdown false
        (.mk CMARK_NODE_LIST { list := ⟨CMARK_BULLET_LIST, 0, true⟩ }
          [.mk CMARK_NODE_ITEM {}
            [.mk CMARK_NODE_PARAGRAPH {} [.mk CMARK_NODE_TEXT { literal := "x".toList } []]]]) 0 =
      .ok "<ul>\nx</li>\n</ul>\n".toList := by
  decide

/-! ## The output is only appended to -/

theorem prefix_cr (html : cmark_strbuf) : html <+: cr html := by
  rcases (cr_fresh_line html).2 with h | h <;> rw [h]
  exact List.prefix_append _ _

theorem prefix_cr_append (html s : cmark_strbuf) : html <+: cr html ++ s :=
  (prefix_cr html).trans (List.prefix_append _ _)

/-- C18: for every render state and every event on which `S_render_node` returns normally,
the buffer before the call is a prefix of the buffer after it: bytes are appended and none
already emitted is rewritten or removed. -/
theorem render_node_only_appends (node : cmark_node) (ev_type : cmark_event_type)
    (state state' : render_state) (h : S_render_node node ev_type state = .ok state') :
    state.html <+: state'.html := by
  obtain ⟨html, plain⟩ := state
  simp only [S_render_node, cmark_strbuf_puts, cmark_strbuf_put, cmark_strbuf_putc,
    cmark_strbuf_printf, escape_html, houdini_escape_html0, escape_href,
    houdini_escape_href] at h
  repeat' split at h
  all_goals cases h
  all_goals simp only [List.append_assoc]
  all_goals first
    | exact List.prefix_refl _
    | exact List.prefix_append _ _
    | exact prefix_cr_append _ _

/-- The Enter event on a BlockQuote with the buffer `x`: the result `x`, newline, open
marker has `x` as a prefix. -/
theorem render_node_only_appends_witness :
    S_render_node ⟨[0], none, CMARK_NODE_BLOCK_QUOTE, {}⟩ CMARK_EVENT_ENTER
        ⟨"x".toList, none⟩ = .ok ⟨"x\n<blockquote>\n".toList, none⟩ ∧
    "x".toList <+: "x\n<blockquote>\n".toList :=
  ⟨by decide,
   render_node_only_appends ⟨[0], none, CMARK_NODE_BLOCK_QUOTE, {}⟩ CMARK_EVENT_ENTER
      ⟨"x".toList, none⟩ ⟨"x\n<blockquote>\n".toList, none⟩ (by decide)⟩

/-! ## The language tag of a code block -/

theorem first_token_eq_takeWhile_space (info : Bytes)
    (hws : ∀ c ∈ info, c.isWhitespace = true → c = ' ') (hhead : info.head? ≠ some ' ') :
    first_whitespace_token info = info.takeWhile (fun c => decide (c ≠ ' ')) := by
  unfold first_whitespace_token
  have hdrop : info.dropWhile Char.isWhitespace = info := by
    cases info with
    | nil => rfl
    | cons c rest =>
      have hc : c ≠ ' ' := by simpa using hhead
      have : c.isWhitespace = false := by
        by_contra hw
        exact hc (hws c (by simp) (by simpa using hw))
      simp [List.dropWhile_cons, this]
  rw [hdrop]
  clear hhead hdrop
  induction info with
  | nil => rfl
  | cons c rest ih =>
    have ih' := ih (fun x hx => hws x (by simp [hx]))
    by_cases hc : c = ' '
    · subst hc
      simp [List.takeWhile_cons, Char.isWhitespace]
    · have : c.isWhitespace = false := by
        by_contra hw
        exact hc (hws c (by simp) (by simpa using hw))
      simp [List.takeWhile_cons, this, hc]
      simpa using ih'

/-- C19, as the code has it: for the info `a`, tab, `b` the tag emitted is the whole info,
tab included, while its first whitespace-delimited token is `a`; for the info space, `rust`
the tag emitted is empty, while its first token is `rust`. -/
theorem language_tag_stops_only_at_space :
    S_render_node ⟨[0], none, CMARK_NODE_CODE_BLOCK,
        { literal := "x".toList, code := ⟨"a\tb".toList⟩ }⟩ CMARK_EVENT_ENTER ⟨[], none⟩ =
      .ok ⟨"<pre><code class=\"language-a\tb\">x</code></pre>\n".toList, none⟩ ∧
    first_whitespace_token "a\tb".toList = "a".toList ∧
    S_render_node ⟨[0], none, CMARK_NODE_CODE_BLOCK,
        { literal := "x".toList, code := ⟨" rust".toList⟩ }⟩ CMARK_EVENT_ENTER ⟨[], none⟩ =
      .ok ⟨"<pre><code class=\"language-\">x</code></pre>\n".toList, none⟩ ∧
    first_whitespace_token " rust".toList = "rust".toList ∧
    "a\tb".toList.take (first_tag_loop "a\tb".toList 0) ≠ first_whitespace_token "a\tb".toList ∧
    " rust".toList.take (first_tag_loop " rust".toList 0) ≠
      first_whitespace_token " rust".toList := by
  decide

/-- C19, amended: for every CodeBlock node with non-empty info, the language tag emitted in
the fence-open is the HTML-escaped part of info before its first space character, which
is what the loop over `first_tag` selects: a tab or a newline does not end the tag and a
leading space is not skipped.  The tag is the first whitespace-delimited token of info
when info does not begin with a space and its only whitespace characters are spaces. -/
theorem language_tag_is_up_to_first_space (node : cmark_node) (html : cmark_strbuf)
    (plain : Option cmark_node_ptr) (h : node.type = CMARK_NODE_CODE_BLOCK)
    (hplain : plain = none ∨ plain = some node.ptr) (hinfo : node.as.code.info ≠ []) :
    (∃ rest : Bytes,
      S_render_node node CMARK_EVENT_ENTER ⟨html, plain⟩ =
        .ok ⟨cr html ++ "<pre><code class=\"language-".toList ++
          escape_html [] node.as.code.info (first_tag_loop node.as.code.info 0 : Int) ++
          "\">".toList ++ rest, none⟩) ∧
    node.as.code.info.take (first_tag_loop node.as.code.info 0) =
      node.as.code.info.takeWhile (fun c => decide (c ≠ ' ')) ∧
    (' ' ∉ node.as.code.info →
      node.as.code.info.take (first_tag_loop node.as.code.info 0) = node.as.code.info) ∧
    (node.as.code.info.head? = some ' ' →
      node.as.code.info.take (first_tag_loop node.as.code.info 0) = []) ∧
    ((∀ c ∈ node.as.code.info, c.isWhitespace = true → c = ' ') →
      node.as.code.info.head? ≠ some ' ' →
      node.as.code.info.take (first_tag_loop node.as.code.info 0) =
        first_whitespace_token node.as.code.info) := by
  have hlen : node.as.code.info.length ≠ 0 := by simpa using hinfo
  refine ⟨⟨escape_html [] node.as.literal node.as.literal.length ++
      "</code></pre>\n".toList, ?_⟩, take_first_tag _, fun hsp => ?_, fun hh => ?_,
    fun hws hhead => ?_⟩
  · rcases hplain with rfl | rfl <;>
      simp +decide [S_render_node, h, hlen, puts_lit, escape_html_len, escape_html_first_tag]
  · rw [take_first_tag]
    apply List.takeWhile_eq_self_iff.mpr
    intro x hx
    have : x ≠ ' ' := fun e => hsp (e ▸ hx)
    simpa using this
  · rw [take_first_tag]
    cases hi : node.as.code.info with
    | nil => rfl
    | cons c rest =>
      rw [hi] at hh
      have hc : c = ' ' := by simpa using hh
      simp [List.takeWhile_cons, hc]
  · rw [take_first_tag, first_token_eq_takeWhile_space _ hws hhead]

/-- The info `rust extra` on the empty buffer: the fence-open carries the tag `rust`, the
part before the first space, which here is also the first token. -/
theorem language_tag_is_up_to_first_space_witness :
    "rust extra".toList.take (first_tag_loop "rust extra".toList 0) =
      "rust extra".toList.takeWhile (fun c => decide (c ≠ ' ')) ∧
    "rust extra".toList.take (first_tag_loop "rust extra".toList 0) =
      first_whitespace_token "rust extra".toList ∧
    first_whitespace_token "rust extra".toList = "rust".toList :=
  ⟨(language_tag_is_up_to_first_space
      ⟨[0], none, CMARK_NODE_CODE_BLOCK, { literal := "x".toList, code := ⟨"rust extra".toList⟩ }⟩
      [] none rfl (Or.inl rfl) (by decide)).2.1,
   (language_tag_is_up_to_first_space
      ⟨[0], none, CMARK_NODE_CODE_BLOCK, { literal := "x".toList, code := ⟨"rust extra".toList⟩ }⟩
      [] none rfl (Or.inl rfl) (by decide)).2.2.2.2 (by decide) (by decide),
   by decide⟩

theorem header_enter_and_other_events (node : cmark_node) (html : cmark_strbuf)
    (plain : Option cmark_node_ptr) (h : node.type = CMARK_NODE_HEADER)
    (hlevel : 1 ≤ node.as.header.level ∧ node.as.header.level ≤ 6)
    (hplain : plain = none ∨ plain = some node.ptr) :
    S_render_node node CMARK_EVENT_ENTER ⟨html, plain⟩ =
      .ok ⟨cr html ++ List.replicate node.as.header.level.toNat '#', none⟩ ∧
    (∀ ev_type : cmark_event_type, ev_type ≠ CMARK_EVENT_ENTER →
      S_render_node node ev_type ⟨html, plain⟩ =
        .ok ⟨html ++ [' '] ++ List.replicate node.as.header.level.toNat '#' ++ ['\n'],
          none⟩) := by
  obtain ⟨l1, l6⟩ := hlevel
  obtain ⟨k, hk⟩ := Int.eq_ofNat_of_zero_le (by omega : 0 ≤ node.as.header.level)
  have k1 : 1 ≤ k := by omega
  have k6 : k ≤ 6 := by omega
  have hS := start_header_marker k k1 k6
  have hE := end_header_marker k k1 k6
  rw [hk, Int.toNat_ofNat]
  refine ⟨?_, fun ev_type hev => ?_⟩
  · rcases hplain with rfl | rfl <;>
      simp only [S_render_node, h, hk, hS.1] <;>
      rw [puts_append, hS.2] <;> simp
  · have hne : (ev_type == CMARK_EVENT_ENTER) = false := by
      cases ev_type <;> simp at hev ⊢
    rcases hplain with rfl | rfl <;>
      simp only [S_render_node, h, hk, hE.1, hne] <;>
      rw [puts_append, hE.2] <;> simp [cmark_strbuf_putc]

/-! ## The anchor over a traversal -/

theorem self_and_ancestors_eq (node : cmark_node) :
    self_and_ancestors node = node.ptr :: parent_and_ancestors node.parent := by
  obtain ⟨ptr, parent, type, as⟩ := node
  cases parent <;> simp [self_and_ancestors, parent_and_ancestors]

theorem render_loop_append (xs ys : List cmark_event) (state : render_state) :
    render_loop (xs ++ ys) state =
      match render_loop xs state with
      | .error e => .error e
      | .ok state' => render_loop ys state' := by
  induction xs generalizing state with
  | nil => rfl
  | cons x xs ih =>
    obtain ⟨node, ev_type⟩ := x
    simp only [List.cons_append, render_loop]
    cases S_render_node node ev_type state with
    | error e => rfl
    | ok state' => exact ih state'

theorem steps_satisfy_append
    (P : render_state → cmark_node → cmark_event_type → render_state → Prop)
    (xs ys : List cmark_event) (state state' : render_state)
    (hx : steps_satisfy P xs state) (hrun : render_loop xs state = .ok state')
    (hy : steps_satisfy P ys state') : steps_satisfy P (xs ++ ys) state := by
  induction xs generalizing state with
  | nil =>
    simp only [render_loop, Except.ok.injEq] at hrun
    subst hrun
    exact hy
  | cons x xs ih =>
    obtain ⟨node, ev_type⟩ := x
    obtain ⟨s1, h1, hP, hrest⟩ := hx
    simp only [render_loop, h1] at hrun
    exact ⟨s1, h1, hP, ih s1 hrest hrun⟩

theorem steps_satisfy_split
    (P : render_state → cmark_node → cmark_event_type → render_state → Prop)
    (pre suf : List cmark_event) (node : cmark_node) (ev_type : cmark_event_type)
    (state : render_state) (h : steps_satisfy P (pre ++ (node, ev_type) :: suf) state) :
    ∃ before after : render_state, render_loop pre state = .ok before ∧
      S_render_node node ev_type before = .ok after ∧ P before node ev_type after := by
  induction pre generalizing state with
  | nil =>
    obtain ⟨s1, h1, hP, _⟩ := h
    exact ⟨state, s1, rfl, h1, hP⟩
  | cons x xs ih =>
    obtain ⟨n, ev⟩ := x
    obtain ⟨s1, h1, _, hrest⟩ := h
    obtain ⟨b, a, hb, ha, hP⟩ := ih s1 hrest
    exact ⟨b, a, by simp only [render_loop, h1, hb], ha, hP⟩

theorem plain_mode_step (node : cmark_node) (ev_type : cmark_event_type)
    (html : cmark_strbuf) (a : cmark_node_ptr) (ha : a ≠ node.ptr) :
    ∃ html' : cmark_strbuf,
      S_render_node node ev_type ⟨html, some a⟩ = .ok ⟨html', some a⟩ := by
  cases hty : node.type <;> simp [S_render_node, hty, ha]

theorem normal_mode_step (node : cmark_node) (ev_type : cmark_event_type)
    (html : cmark_strbuf) (plain : Option cmark_node_ptr)
    (hplain : plain = none ∨ plain = some node.ptr)
    (hk : is_known_kind node.type = true)
    (hl : node.type = CMARK_NODE_HEADER →
      1 ≤ node.as.header.level ∧ node.as.header.level ≤ 6) :
    ∃ html' : cmark_strbuf,
      S_render_node node ev_type ⟨html, plain⟩ =
        .ok ⟨html', if node.type = CMARK_NODE_IMAGE ∧ ev_type = CMARK_EVENT_ENTER
          then some node.ptr else none⟩ := by
  cases hty : node.type
  case CMARK_NODE_OTHER v => simp [hty, is_known_kind] at hk
  case CMARK_NODE_HEADER =>
    have h16 := hl hty
    have haux := header_enter_and_other_events node html plain hty h16 hplain
    cases ev_type
    · exact ⟨_, by simpa using haux.2 CMARK_EVENT_DONE (by decide)⟩
    · exact ⟨_, by simpa using haux.1⟩
    · exact ⟨_, by simpa using haux.2 CMARK_EVENT_EXIT (by decide)⟩
  all_goals
    rcases hplain with rfl | rfl <;> cases ev_type <;> simp [S_render_node, hty] <;>
      (try split_ifs) <;> exact ⟨_, rfl⟩

theorem anchor_step_plain (node : cmark_node) (ev_type : cmark_event_type)
    (html html' : cmark_strbuf) (a : cmark_node_ptr) (ha : a ≠ node.ptr)
    (hmem : a ∈ self_and_ancestors node) :
    anchor_step ⟨html, some a⟩ node ev_type ⟨html', some a⟩ := by
  refine ⟨Or.inr ⟨a, rfl, hmem⟩, ?_⟩
  simp [ha]

theorem anchor_step_enter (node : cmark_node) (html html' : cmark_strbuf)
    (plain' : Option cmark_node_ptr) :
    anchor_step ⟨html, none⟩ node CMARK_EVENT_ENTER ⟨html', plain'⟩ := by
  refine ⟨Or.inl rfl, ?_⟩
  simp

theorem anchor_step_exit (node : cmark_node) (html html' : cmark_strbuf)
    (plain : Option cmark_node_ptr) (hplain : plain = none ∨ plain = some node.ptr) :
    anchor_step ⟨html, plain⟩ node CMARK_EVENT_EXIT ⟨html', none⟩ := by
  rcases hplain with rfl | rfl
  · refine ⟨Or.inl rfl, ?_⟩
    simp
  · refine ⟨Or.inr ⟨node.ptr, rfl, ?_⟩, ?_⟩
    · rw [self_and_ancestors_eq]
      simp
    · simp

mutual
theorem anchor_over_tree (leaf_exit : Bool) :
    ∀ (t : cmark_tree) (ptr : cmark_node_ptr) (parent : Option cmark_node)
      (state : render_state), well_formed t = true →
      (state.plain = none ∨ ∃ a, state.plain = some a ∧ a ∈ parent_and_ancestors parent ∧
        a.length < ptr.length) →
      ∃ state', render_loop (cmark_iter_events leaf_exit ptr parent t) state = .ok state' ∧
        state'.plain = state.plain ∧
        steps_satisfy anchor_step (cmark_iter_events leaf_exit ptr parent t) state
  | .mk type as children, ptr, parent, ⟨html, plain⟩, hwf, hpre => by
    simp only [well_formed, Bool.and_eq_true, Bool.or_eq_true, bne_iff_ne, ne_eq,
      decide_eq_true_eq, Bool.not_eq_true'] at hwf
    obtain ⟨⟨⟨hk, hl⟩, hleaf⟩, hwc⟩ := hwf
    have hnd : self_and_ancestors ⟨ptr, parent, type, as⟩ =
        ptr :: parent_and_ancestors parent := self_and_ancestors_eq _
    rcases hpre with hnone | ⟨a, hsome, hmem, hlen⟩
    · simp only at hnone
      subst hnone
      have hl' : (⟨ptr, parent, type, as⟩ : cmark_node).type = CMARK_NODE_HEADER →
          1 ≤ (⟨ptr, parent, type, as⟩ : cmark_node).as.header.level ∧
          (⟨ptr, parent, type, as⟩ : cmark_node).as.header.level ≤ 6 := by
        intro e
        rcases hl with hl | hl
        · exact absurd e hl
        · exact hl
      obtain ⟨h1, hE⟩ := normal_mode_step ⟨ptr, parent, type, as⟩ CMARK_EVENT_ENTER html none
        (Or.inl rfl) hk hl'
      by_cases hsingle : (is_leaf_kind type && !leaf_exit) = true
      · have hnotimg : type ≠ CMARK_NODE_IMAGE := by
          intro e
          subst e
          simp [is_leaf_kind] at hsingle
        simp only [hnotimg, false_and, if_false] at hE
        refine ⟨⟨h1, none⟩, ?_, rfl, ?_⟩
        · simp only [cmark_iter_events, hsingle, if_true, render_loop, hE]
        · simp only [cmark_iter_events, hsingle, if_true]
          exact ⟨_, hE, anchor_step_enter _ _ _ _, trivial⟩
      · have hpl1 : (if (⟨ptr, parent, type, as⟩ : cmark_node).type = CMARK_NODE_IMAGE ∧
            CMARK_EVENT_ENTER = CMARK_EVENT_ENTER then some ptr else none) = none ∨
            (if (⟨ptr, parent, type, as⟩ : cmark_node).type = CMARK_NODE_IMAGE ∧
            CMARK_EVENT_ENTER = CMARK_EVENT_ENTER then some ptr else none) = some ptr := by
          by_cases himg : type = CMARK_NODE_IMAGE <;> simp [himg]
        generalize (if (⟨ptr, parent, type, as⟩ : cmark_node).type = CMARK_NODE_IMAGE ∧
            CMARK_EVENT_ENTER = CMARK_EVENT_ENTER then some ptr else none) = plain1 at hE hpl1
        obtain ⟨s2, hrun2, hpl2, hst2⟩ := anchor_over_children leaf_exit children ptr
          ⟨ptr, parent, type, as⟩ 0 ⟨h1, plain1⟩ hwc (by
            rcases hpl1 with h | h
            · exact Or.inl h
            · exact Or.inr ⟨ptr, h, by rw [hnd]; simp, Nat.le_refl _⟩)
        obtain ⟨h2, pl2⟩ := s2
        simp only at hpl2
        subst hpl2
        obtain ⟨h3, hX⟩ := normal_mode_step ⟨ptr, parent, type, as⟩ CMARK_EVENT_EXIT h2 pl2
          hpl1 hk hl'
        simp only [reduceCtorEq, and_false, if_false] at hX
        refine ⟨⟨h3, none⟩, ?_, rfl, ?_⟩
        · simp only [cmark_iter_events, hsingle, render_loop, hE, render_loop_append, hrun2,
            hX, Bool.false_eq_true, if_false]
        · simp only [cmark_iter_events, hsingle, Bool.false_eq_true, if_false]
          refine ⟨_, hE, anchor_step_enter _ _ _ _, ?_⟩
          exact steps_satisfy_append _ _ _ _ _ hst2 hrun2
            ⟨_, hX, anchor_step_exit _ _ _ _ hpl1, trivial⟩
    · simp only at hsome
      subst hsome
      have ha : a ≠ ptr := fun e => by rw [e] at hlen; exact Nat.lt_irrefl _ hlen
      have hmem' : a ∈ self_and_ancestors ⟨ptr, parent, type, as⟩ := by
        rw [hnd]; exact List.mem_cons_of_mem _ hmem
      obtain ⟨h1, hE⟩ := plain_mode_step ⟨ptr, parent, type, as⟩ CMARK_EVENT_ENTER html a ha
      by_cases hsingle : (is_leaf_kind type && !leaf_exit) = true
      · refine ⟨⟨h1, some a⟩, ?_, rfl, ?_⟩
        · simp only [cmark_iter_events, hsingle, if_true, render_loop, hE]
        · simp only [cmark_iter_events, hsingle, if_true]
          exact ⟨_, hE, anchor_step_plain _ _ _ _ _ ha hmem', trivial⟩
      · obtain ⟨s2, hrun2, hpl2, hst2⟩ := anchor_over_children leaf_exit children ptr
          ⟨ptr, parent, type, as⟩ 0 ⟨h1, some a⟩ hwc
          (Or.inr ⟨a, rfl, hmem', Nat.le_of_lt hlen⟩)
        obtain ⟨h2, pl2⟩ := s2
        simp only at hpl2
        subst hpl2
        obtain ⟨h3, hX⟩ := plain_mode_step ⟨ptr, parent, type, as⟩ CMARK_EVENT_EXIT h2 a ha
        refine ⟨⟨h3, some a⟩, ?_, rfl, ?_⟩
        · simp only [cmark_iter_events, hsingle, render_loop, hE, render_loop_append, hrun2,
            hX, Bool.false_eq_true, if_false]
        · simp only [cmark_iter_events, hsingle, Bool.false_eq_true, if_false]
          refine ⟨_, hE, anchor_step_plain _ _ _ _ _ ha hmem', ?_⟩
          exact steps_satisfy_append _ _ _ _ _ hst2 hrun2
            ⟨_, hX, anchor_step_plain _ _ _ _ _ ha hmem', trivial⟩
theorem anchor_over_children (leaf_exit : Bool) :
    ∀ (children : List cmark_tree) (ptr : cmark_node_ptr) (node : cmark_node) (i : Nat)
      (state : render_state), well_formed_children children = true →
      (state.plain = none ∨ ∃ a, state.plain = some a ∧ a ∈ self_and_ancestors node ∧
        a.length ≤ ptr.length) →
      ∃ state', render_loop (cmark_iter_children leaf_exit ptr (some node) i children) state =
          .ok state' ∧ state'.plain = state.plain ∧
        steps_satisfy anchor_step (cmark_iter_children leaf_exit ptr (some node) i children)
          state
  | [], ptr, node, i, state, _, _ => by
    exact ⟨state, by simp only [cmark_iter_children, render_loop], rfl,
      by simp only [cmark_iter_children, steps_satisfy]⟩
  | child :: rest, ptr, node, i, state, hwf, hpre => by
    simp only [well_formed_children, Bool.and_eq_true] at hwf
    obtain ⟨hwc, hwr⟩ := hwf
    have hpre1 : state.plain = none ∨ ∃ a, state.plain = some a ∧
        a ∈ parent_and_ancestors (some node) ∧ a.length < (ptr ++ [i]).length := by
      rcases hpre with h | ⟨a, h1, h2, h3⟩
      · exact Or.inl h
      · exact Or.inr ⟨a, h1, h2, by simp; omega⟩
    obtain ⟨s1, hrun1, hpl1, hst1⟩ :=
      anchor_over_tree leaf_exit child (ptr ++ [i]) (some node) state hwc hpre1
    obtain ⟨s2, hrun2, hpl2, hst2⟩ :=
      anchor_over_children leaf_exit rest ptr node (i + 1) s1 hwr (by rw [hpl1]; exact hpre)
    refine ⟨s2, ?_, by rw [hpl2, hpl1], ?_⟩
    · simp only [cmark_iter_children, render_loop_append, hrun1, hrun2]
    · simp only [cmark_iter_children]
      exact steps_satisfy_append _ _ _ _ _ hst1 hrun1 hst2
end

/-- C12: for every well-formed tree, rendering from `plain = NULL` processes every event of
the traversal and ends with `plain = NULL`; at every event, the state reached after the
events before it has `plain` either `NULL` or the address of the node of the event or of
one of its ancestors, and the event clears `plain` exactly when it is the Exit event of the
node that `plain` points to. -/
theorem anchor_invariant_over_traversal (leaf_exit : Bool) (root : cmark_tree)
    (hwf : well_formed root = true) :
    (∃ final : render_state,
      render_loop (cmark_iter_events leaf_exit [] none root) ⟨[], none⟩ = .ok final ∧
      final.plain = none) ∧
    (∀ options : Int, ∃ out : Bytes, cmark_render_markdown leaf_exit root options = .ok out) ∧
    (∀ (pre suf : List cmark_event) (node : cmark_node) (ev_type : cmark_event_type),
      cmark_iter_events leaf_exit [] none root = pre ++ (node, ev_type) :: suf →
      ∃ before after : render_state,
        render_loop pre ⟨[], none⟩ = .ok before ∧
        S_render_node node ev_type before = .ok after ∧
        (before.plain = none ∨
          ∃ a, before.plain = some a ∧ a ∈ self_and_ancestors node) ∧
        ((before.plain ≠ none ∧ after.plain = none) ↔
          (before.plain = some node.ptr ∧ ev_type = CMARK_EVENT_EXIT))) := by
  obtain ⟨final, hrun, hplain, hsteps⟩ :=
    anchor_over_tree leaf_exit root [] none ⟨[], none⟩ hwf (Or.inl rfl)
  refine ⟨⟨final, hrun, hplain⟩, fun _ => ⟨final.html, ?_⟩, ?_⟩
  · simp only [cmark_render_markdown, hrun, cmark_strbuf_detach]
  · intro pre suf node ev_type hsplit
    rw [hsplit] at hsteps
    obtain ⟨before, after, hb, ha, hP⟩ := steps_satisfy_split _ _ _ _ _ _ hsteps
    exact ⟨before, after, hb, ha, hP.1, hP.2⟩

/-- The Document with a Paragraph holding an Image over the Text `b`: the run ends with
`plain = NULL`; the Text event finds `plain` at the Image, its parent, and leaves it, and
the Exit event of the Image clears it. -/
theorem anchor_invariant_over_traversal_witness :
    (∃ final : render_state,
      render_loop (cmark_iter_events false [] none
        (.mk CMARK_NODE_DOCUMENT {} [.mk CMARK_NODE_PARAGRAPH {}
          [.mk CMARK_NODE_IMAGE {} [.mk CMARK_NODE_TEXT { literal := "b".toList } []]]]))
        ⟨[], none⟩ = .ok final ∧ final.plain = none) ∧
    render_loop ((cmark_iter_events false [] none
        (.mk CMARK_NODE_DOCUMENT {} [.mk CMARK_NODE_PARAGRAPH {}
          [.mk CMARK_NODE_IMAGE {} [.mk CMARK_NODE_TEXT { literal := "b".toList } []]]])).take 3)
        ⟨[], none⟩ = .ok ⟨"\n![]()".toList, some [0, 0]⟩ ∧
    render_loop ((cmark_iter_events false [] none
        (.mk CMARK_NODE_DOCUMENT {} [.mk CMARK_NODE_PARAGRAPH {}
          [.mk CMARK_NODE_IMAGE {} [.mk CMARK_NODE_TEXT { literal := "b".toList } []]]])).take 4)
        ⟨[], none⟩ = .ok ⟨"\n![]()b".toList, some [0, 0]⟩ ∧
    render_loop ((cmark_iter_events false [] none
        (.mk CMARK_NODE_DOCUMENT {} [.mk CMARK_NODE_PARAGRAPH {}
          [.mk CMARK_NODE_IMAGE {} [.mk CMARK_NODE_TEXT { literal := "b".toList } []]]])).take 5)
        ⟨[], none⟩ = .ok ⟨"\n![]()b".toList, none⟩ :=
  ⟨(anchor_invariant_over_traversal false
      (.mk CMARK_NODE_DOCUMENT {} [.mk CMARK_NODE_PARAGRAPH {}
        [.mk CMARK_NODE_IMAGE {} [.mk CMARK_NODE_TEXT { literal := "b".toList } []]]])
      (by decide)).1,
   by decide, by decide, by decide⟩

/-! ## The flattened text of an image -/

theorem image_enter_exit_states (node : cmark_node) (html : cmark_strbuf)
    (plain : Option cmark_node_ptr) (hplain : plain = none ∨ plain = some node.ptr) :
    node.type = CMARK_NODE_IMAGE →
      S_render_node node CMARK_EVENT_ENTER ⟨html, plain⟩ =
        .ok ⟨html ++ "![".toList ++
          (match node.as.link.title with
            | some title => escape_html [] title (-1)
            | none => []) ++
          "](".toList ++
          (match node.as.link.url with
            | some url => escape_href [] url (-1)
            | none => []) ++
          ")".toList, some node.ptr⟩ ∧
      ∀ (buf : cmark_strbuf) (pl : Option cmark_node_ptr), pl = none ∨ pl = some node.ptr →
        S_render_node node CMARK_EVENT_EXIT ⟨buf, pl⟩ = .ok ⟨buf, none⟩ := by
  intro h
  refine ⟨?_, fun buf pl hpl => ?_⟩
  · rcases ht : node.as.link.title with _ | t <;> rcases hu : node.as.link.url with _ | u <;>
      rcases hplain with rfl | rfl <;>
      simp +decide [S_render_node, h, ht, hu, puts_lit, escape_html, houdini_escape_html0,
        escape_href, houdini_escape_href]
  · rcases hpl with rfl | rfl <;> simp +decide [S_render_node, h]


theorem plain_mode_contribution (node : cmark_node) (ev_type : cmark_event_type)
    (html : cmark_strbuf) (a : cmark_node_ptr) (ha : a ≠ node.ptr) :
    S_render_node node ev_type ⟨html, some a⟩ =
      .ok ⟨html ++ plain_contribution node.type node.as, some a⟩ := by
  cases hty : node.type <;>
    simp [S_render_node, hty, ha, plain_contribution, escape_html_len, cmark_strbuf_putc]

theorem plain_contribution_of_not_leaf (type : cmark_node_type) (as : cmark_node_as)
    (h : is_leaf_kind type = false) : plain_contribution type as = [] := by
  cases type <;> simp [is_leaf_kind, plain_contribution] at h ⊢

mutual
theorem flatten_over_tree :
    ∀ (t : cmark_tree) (ptr : cmark_node_ptr) (parent : Option cmark_node)
      (html : cmark_strbuf) (a : cmark_node_ptr), well_formed t = true →
      a.length < ptr.length →
      render_loop (cmark_iter_events false ptr parent t) ⟨html, some a⟩ =
        .ok ⟨html ++ plain_text t, some a⟩ ∧
      steps_satisfy (fun s _ _ s' => s.plain = some a ∧ s'.plain = some a)
        (cmark_iter_events false ptr parent t) ⟨html, some a⟩
  | .mk type as children, ptr, parent, html, a, hwf, hlen => by
    simp only [well_formed, Bool.and_eq_true, Bool.or_eq_true, Bool.not_eq_true'] at hwf
    obtain ⟨⟨_, hleaf⟩, hwc⟩ := hwf
    have ha : a ≠ ptr := fun e => by rw [e] at hlen; exact Nat.lt_irrefl _ hlen
    have hstep : ∀ (ev_type : cmark_event_type) (buf : cmark_strbuf),
        S_render_node ⟨ptr, parent, type, as⟩ ev_type ⟨buf, some a⟩ =
          .ok ⟨buf ++ plain_contribution type as, some a⟩ :=
      fun ev_type buf => plain_mode_contribution ⟨ptr, parent, type, as⟩ ev_type buf a ha
    by_cases hkind : is_leaf_kind type = true
    · have hnil : children = [] := by
        rcases hleaf with h | h
        · rw [hkind] at h
          exact absurd h (by decide)
        · simpa using h
      subst hnil
      refine ⟨?_, ?_⟩
      · simp [cmark_iter_events, hkind, render_loop, hstep, plain_text, plain_text_children]
      · simp only [cmark_iter_events, hkind, Bool.not_false, Bool.and_self, if_true]
        exact ⟨_, hstep _ _, ⟨rfl, rfl⟩, trivial⟩
    · have hkind' : is_leaf_kind type = false := by simpa using hkind
      have hc : plain_contribution type as = [] := plain_contribution_of_not_leaf _ _ hkind'
      obtain ⟨hrun, hst⟩ := flatten_over_children children ptr ⟨ptr, parent, type, as⟩ 0
        (html ++ plain_contribution type as) a hwc (Nat.le_of_lt hlen)
      refine ⟨?_, ?_⟩
      · simp only [cmark_iter_events, hkind', Bool.false_and, Bool.false_eq_true, if_false,
          render_loop, hstep, render_loop_append, hrun, plain_text]
        simp [hc]
      · simp only [cmark_iter_events, hkind', Bool.false_and, Bool.false_eq_true, if_false]
        refine ⟨_, hstep _ _, ⟨rfl, rfl⟩, ?_⟩
        exact steps_satisfy_append _ _ _ _ _ hst hrun ⟨_, hstep _ _, ⟨rfl, rfl⟩, trivial⟩
theorem flatten_over_children :
    ∀ (children : List cmark_tree) (ptr : cmark_node_ptr) (node : cmark_node) (i : Nat)
      (html : cmark_strbuf) (a : cmark_node_ptr), well_formed_children children = true →
      a.length ≤ ptr.length →
      render_loop (cmark_iter_children false ptr (some node) i children) ⟨html, some a⟩ =
        .ok ⟨html ++ plain_text_children children, some a⟩ ∧
      steps_satisfy (fun s _ _ s' => s.plain = some a ∧ s'.plain = some a)
        (cmark_iter_children false ptr (some node) i children) ⟨html, some a⟩
  | [], ptr, node, i, html, a, _, _ => by
    simp [cmark_iter_children, render_loop, plain_text_children, steps_satisfy]
  | child :: rest, ptr, node, i, html, a, hwf, hlen => by
    simp only [well_formed_children, Bool.and_eq_true] at hwf
    obtain ⟨hwc, hwr⟩ := hwf
    obtain ⟨hrun1, hst1⟩ := flatten_over_tree child (ptr ++ [i]) (some node) html a hwc
      (by simp; omega)
    obtain ⟨hrun2, hst2⟩ := flatten_over_children rest ptr node (i + 1)
      (html ++ plain_text child) a hwr hlen
    refine ⟨?_, ?_⟩
    · simp only [cmark_iter_children, render_loop_append, hrun1, hrun2, plain_text_children,
        List.append_assoc]
    · simp only [cmark_iter_children]
      exact steps_satisfy_append _ _ _ _ _ hst1 hrun1 hst2
end

theorem anchor_kept_on_prefix (a : cmark_node_ptr) :
    ∀ (pre suf : List cmark_event) (html : cmark_strbuf),
      steps_satisfy (fun s _ _ s' => s.plain = some a ∧ s'.plain = some a) (pre ++ suf)
        ⟨html, some a⟩ →
      ∃ html' : cmark_strbuf, render_loop pre ⟨html, some a⟩ = .ok ⟨html', some a⟩ := by
  intro pre
  induction pre with
  | nil => exact fun suf html _ => ⟨html, rfl⟩
  | cons x xs ih =>
    intro suf html h
    obtain ⟨node, ev_type⟩ := x
    obtain ⟨⟨h1, p1⟩, hs, ⟨_, hp⟩, hrest⟩ := h
    simp only at hp
    subst hp
    obtain ⟨html', hrun⟩ := ih suf h1 hrest
    exact ⟨html', by simp only [render_loop, hs, hrun]⟩

/-- C20: for an Image node `m` reached in normal mode, over the traversal in which a node
of a leaf kind yields one event and with well-formed subtrees below it, the events of the
proper descendants of `m` append the concatenation, in document order, of the HTML-escaped
literal of each Text, Code and InlineHtml descendant and of one space for each LineBreak
and SoftBreak descendant, and nothing for a descendant of any other kind, a nested Image
included; `plain` stays at `m` after every one of these events, and the events of `m`
together append the image syntax followed by that text and leave `plain = NULL`. -/
theorem image_flattens_descendants (as : cmark_node_as) (children : List cmark_tree)
    (ptr : cmark_node_ptr) (parent : Option cmark_node) (html : cmark_strbuf)
    (plain : Option cmark_node_ptr) (hplain : plain = none ∨ plain = some ptr)
    (hwf : well_formed_children children = true) :
    S_render_node ⟨ptr, parent, CMARK_NODE_IMAGE, as⟩ CMARK_EVENT_ENTER ⟨html, plain⟩ =
      .ok ⟨html ++ image_markup as, some ptr⟩ ∧
    render_loop
      (cmark_iter_children false ptr (some ⟨ptr, parent, CMARK_NODE_IMAGE, as⟩) 0 children)
      ⟨html ++ image_markup as, some ptr⟩ =
        .ok ⟨html ++ image_markup as ++ plain_text_children children, some ptr⟩ ∧
    (∀ pre suf : List cmark_event,
      cmark_iter_children false ptr (some ⟨ptr, parent, CMARK_NODE_IMAGE, as⟩) 0 children =
        pre ++ suf →
      ∃ html' : cmark_strbuf,
        render_loop pre ⟨html ++ image_markup as, some ptr⟩ = .ok ⟨html', some ptr⟩) ∧
    render_loop (cmark_iter_events false ptr parent (.mk CMARK_NODE_IMAGE as children))
      ⟨html, plain⟩ = .ok ⟨html ++ image_markup as ++ plain_text_children children, none⟩ ∧
    (∀ (as' : cmark_node_as) (children' : List cmark_tree),
      plain_text (.mk CMARK_NODE_IMAGE as' children') = plain_text_children children') := by
  obtain ⟨hE, hX⟩ := (image_enter_exit_states ⟨ptr, parent, CMARK_NODE_IMAGE, as⟩ html
    plain hplain) rfl
  have hE' : S_render_node ⟨ptr, parent, CMARK_NODE_IMAGE, as⟩ CMARK_EVENT_ENTER
      ⟨html, plain⟩ = .ok ⟨html ++ image_markup as, some ptr⟩ := by
    rw [hE]
    simp [image_markup]
  obtain ⟨hrun, hst⟩ := flatten_over_children children ptr
    ⟨ptr, parent, CMARK_NODE_IMAGE, as⟩ 0 (html ++ image_markup as) ptr hwf (Nat.le_refl _)
  refine ⟨hE', hrun, fun pre suf hsplit => ?_, ?_, fun as' children' => ?_⟩
  · rw [hsplit] at hst
    exact anchor_kept_on_prefix ptr pre suf _ hst
  · simp only [cmark_iter_events, is_leaf_kind, Bool.false_and, Bool.false_eq_true,
      if_false, render_loop, hE', render_loop_append, hrun]
    rw [hX _ (some ptr) (Or.inr rfl)]
  · simp [plain_text, plain_contribution]

/-- The Image with title `t` and url `u` over Strong over Text `b`, a SoftBreak, a nested
Image with title `n` and url `v` over Text `c`, and Emph over Code `d`: the descendants
append `b`, a space, `c` and `d`; the whole node renders as the image syntax and that
text. -/
theorem image_flattens_descendants_witness :
    render_loop
      (cmark_iter_children false []
        (some ⟨[], none, CMARK_NODE_IMAGE, { link := ⟨some "u".toList, some "t".toList⟩ }⟩) 0
        [.mk CMARK_NODE_STRONG {} [.mk CMARK_NODE_TEXT { literal := "b".toList } []],
         .mk CMARK_NODE_SOFTBREAK {} [],
         .mk CMARK_NODE_IMAGE { link := ⟨some "v".toList, some "n".toList⟩ }
           [.mk CMARK_NODE_TEXT { literal := "c".toList } []],
         .mk CMARK_NODE_EMPH {} [.mk CMARK_NODE_CODE { literal := "d".toList } []]])
      ⟨"![t](u)".toList, some []⟩ = .ok ⟨"![t](u)b cd".toList, some []⟩ ∧
    cmark_render_markdown false
      (.mk CMARK_NODE_IMAGE { link := ⟨some "u".toList, some "t".toList⟩ }
        [.mk CMARK_NODE_STRONG {} [.mk CMARK_NODE_TEXT { literal := "b".toList } []],
         .mk CMARK_NODE_SOFTBREAK {} [],
         .mk CMARK_NODE_IMAGE { link := ⟨some "v".toList, some "n".toList⟩ }
           [.mk CMARK_NODE_TEXT { literal := "c".toList } []],
         .mk CMARK_NODE_EMPH {} [.mk CMARK_NODE_CODE { literal := "d".toList } []]]) 0 =
      .ok "![t](u)b cd".toList :=
  ⟨(image_flattens_descendants { link := ⟨some "u".toList, some "t".toList⟩ }
      [.mk CMARK_NODE_STRONG {} [.mk CMARK_NODE_TEXT { literal := "b".toList } []],
       .mk CMARK_NODE_SOFTBREAK {} [],
       .mk CMARK_NODE_IMAGE { link := ⟨some "v".toList, some "n".toList⟩ }
         [.mk CMARK_NODE_TEXT { literal := "c".toList } []],
       .mk CMARK_NODE_EMPH {} [.mk CMARK_NODE_CODE { literal := "d".toList } []]]
      [] none [] none (Or.inl rfl) (by decide)).2.1,
   by decide⟩

end Cmark
